import Mathlib

/-!
Verification of the progression / event-sourcing core of the task-RPG
repository, as a shallow embedding in Lean.

Modelling conventions, used throughout:

* JavaScript `number` values that actually carry integers (XP, levels,
  counters, minutes, millisecond timestamps) are modelled as `Int`;
  fractional intermediate values (multipliers, weights, percentages)
  are modelled as `Rat`, with `Math.round x` embedded as `⌊x + 1/2⌋`
  (`jround`) and `Math.floor` as `Int.floor`.
* ISO-8601 timestamp strings are modelled as `Int` milliseconds since the
  epoch, and `yyyy-MM-dd` calendar-day strings as `Int` epoch days, both
  under a fixed (UTC) clock offset; `format(new Date(ms), "yyyy-MM-dd")`
  becomes `msToDay`, `completedAt?.startsWith(today)` becomes
  `msToDay completedAt = today`, string comparison of ISO strings becomes
  integer comparison (lexicographic order of equal-format ISO strings
  agrees with chronological order), and `differenceInCalendarDays`
  becomes subtraction of epoch days.
* Dexie tables are modelled as lists of rows, `put` as replace-by-primary-
  key (append when absent), `add` as append, and the whole database as an
  explicit `Db` record threaded through the (sequentially awaited)
  operations of the store.
-/

set_option maxRecDepth 8000

namespace RPG

/-- JavaScript `Math.round`: round half towards positive infinity. -/
def jround (q : ℚ) : ℤ := ⌊q + 1 / 2⌋

/-- The `clamp(value, min, max)` helper of `src/domain/progression.ts`. -/
def clampQ (value lo hi : ℚ) : ℚ := max lo (min hi value)

/-- Epoch day of an epoch-millisecond timestamp: the embedding of
`format(new Date(ms), "yyyy-MM-dd")` under the UTC clock convention. -/
def msToDay (ms : ℤ) : ℤ := Int.fdiv ms 86400000

/-- Milliseconds in a day. -/
def msPerDay : ℤ := 86400000

/-- Binary search for the largest `t` with `t ^ 20 ≤ B` (integer
twentieth root).  The fuel argument only bounds the number of halving
steps; it is instantiated with a value larger than any possible number of
steps. -/
def iroot20Go (B : ℕ) : ℕ → ℕ → ℕ → ℕ
  | lo, _, 0 => lo
  | lo, hi, fuel + 1 =>
    if hi ≤ lo then lo
    else
      let mid := (lo + hi + 1) / 2
      if mid ^ 20 ≤ B then iroot20Go B mid hi fuel else iroot20Go B lo (mid - 1) fuel

/-- Integer twentieth root: the largest `t` with `t ^ 20 ≤ B`. -/
def iroot20 (B : ℕ) : ℕ := iroot20Go B 0 B (B + 1)

/-- `Math.round (10 * n ^ 1.35)` for a natural level `n`, computed exactly:
`1.35 = 27/20`, and `⌊x + 1/2⌋ = ⌊(⌊2x⌋ + 1)/2⌋` with
`⌊2x⌋ = ⌊(2^20 · 10^20 · n^27) ^ (1/20)⌋` for `x = 10 · n^(27/20)`. -/
def xpCurve (n : ℕ) : ℤ := ((iroot20 (2 ^ 20 * 10 ^ 20 * n ^ 27) + 1) / 2 : ℕ)

/-- `xpToNext` of `src/domain/progression.ts`:
`Math.round(120 + 35 * level + 10 * Math.pow(level, 1.35))` (the integer
summands commute with the rounding). -/
def xpToNext (level : ℤ) : ℤ := 120 + 35 * level + xpCurve level.toNat

/-- `dailySoftCap` of `src/domain/progression.ts`. -/
def dailySoftCap (level : ℤ) : ℤ := 250 + level * 25

theorem xpCurve_nonneg (n : ℕ) : 0 ≤ xpCurve n := Int.ofNat_nonneg _

theorem xpToNext_pos (level : ℤ) (h : 0 ≤ level) : 0 < xpToNext level := by
  have h1 : (0 : ℤ) < 120 + 35 * level := by linarith
  have := xpCurve_nonneg level.toNat
  unfold xpToNext
  linarith

/-- The six stat keys of `src/domain/types.ts`. -/
inductive StatKey where
  | strength | vitality | intellect | creativity | discipline | social
  deriving DecidableEq, Repr, Fintype

/-- Task priorities. -/
inductive Priority where
  | low | medium | high
  deriving DecidableEq, Repr

/-- The `priorityBonusMap` of `src/domain/progression.ts`. -/
def priorityBonusMap : Priority → ℤ
  | .low => 0
  | .medium => 8
  | .high => 16

/-- The priority multiplier of `calculateTaskStatGain`. -/
def priorityMultiplier : Priority → ℚ
  | .low => 85 / 100
  | .medium => 1
  | .high => 115 / 100

/-- `CharacterState` of `src/domain/types.ts`; the total record
`Record<StatKey, number>` of stats is modelled as a function. -/
structure CharacterState where
  level : ℤ
  xpCurrent : ℤ
  xpLifetime : ℤ
  seasonCap : ℤ
  prestigeRank : ℤ
  legacyPoints : ℤ
  stats : StatKey → ℤ

/-- The level/xp loop body of `applyXp`: while
`xpCurrent >= xpToNext(level) && level < seasonCap`, subtract the
threshold and increment the level.  The fuel is instantiated with
`(seasonCap - level).toNat`, which bounds the number of iterations since
each one increments `level` and the guard requires `level < seasonCap`. -/
def applyXpGo (cap : ℤ) : ℕ → ℤ → ℤ → ℤ × ℤ
  | 0, level, xp => (level, xp)
  | fuel + 1, level, xp =>
    if xpToNext level ≤ xp ∧ level < cap then
      applyXpGo cap fuel (level + 1) (xp - xpToNext level)
    else (level, xp)

/-- `applyXp` of `src/domain/progression.ts`. -/
def applyXp (state : CharacterState) (xpGain : ℤ) : CharacterState :=
  let z := state.xpCurrent + xpGain
  let r := applyXpGo state.seasonCap (state.seasonCap - state.level).toNat state.level z
  { state with level := r.1, xpCurrent := r.2, xpLifetime := state.xpLifetime + xpGain }

/-- The borrow-down loop of `removeXp`: while `xpCurrent < 0 && level > 1`,
decrement the level and add back `xpToNext(newLevel)`.  The fuel is
instantiated with `(level - 1).toNat`, which bounds the iterations since
each one decrements `level` and the guard requires `level > 1`. -/
def removeXpGo : ℕ → ℤ → ℤ → ℤ × ℤ
  | 0, level, xp => (level, xp)
  | fuel + 1, level, xp =>
    if xp < 0 ∧ 1 < level then
      removeXpGo fuel (level - 1) (xp + xpToNext (level - 1))
    else (level, xp)

/-- `removeXp` of `src/domain/progression.ts` (`Math.round` on the already
integral `xpLoss` is the identity in this integer model). -/
def removeXp (state : CharacterState) (xpLoss : ℤ) : CharacterState :=
  let loss := max 0 xpLoss
  let r := removeXpGo (state.level - 1).toNat state.level (state.xpCurrent - loss)
  let xp := if r.2 < 0 then 0 else r.2
  { state with
    level := r.1
    xpCurrent := xp
    xpLifetime := max 0 (state.xpLifetime - loss) }

/-- `prestige` of `src/domain/progression.ts` (`Math.floor` of the halves
division is `Int.fdiv`). -/
def prestige (state : CharacterState) : CharacterState :=
  let legacyGain := max 0 (Int.fdiv (state.level - 20) 5)
  { state with
    level := 1
    xpCurrent := 0
    prestigeRank := state.prestigeRank + 1
    legacyPoints := state.legacyPoints + legacyGain }

/-- `Category` of `src/domain/types.ts`; `statWeights` keeps the key
insertion order that `Object.entries` iterates in. -/
structure Category where
  id : String
  name : String
  statWeights : List (StatKey × ℚ)
  xpMultiplier : ℚ
  isDefault : Bool
  deriving DecidableEq, Repr

/-- `normalizeStatWeights` of `src/domain/progression.ts`: keep the
positive entries and re-normalize them to sum 1. -/
def normalizeStatWeights (weights : List (StatKey × ℚ)) : List (StatKey × ℚ) :=
  let entries := weights.filter fun e => 0 < e.2
  let total := (entries.map fun e => e.2).sum
  if total ≤ 0 then [] else entries.map fun e => (e.1, e.2 / total)

/-- `statGains[stat] = (statGains[stat] ?? 0) + points` on the assoc-list
model of a `StatDelta`. -/
def upsertAddStat (l : List (StatKey × ℤ)) (s : StatKey) (n : ℤ) : List (StatKey × ℤ) :=
  if l.any fun e => e.1 = s then
    l.map fun e => if e.1 = s then (e.1, e.2 + n) else e
  else l ++ [(s, n)]

/-- First entry of maximal weight: the head of the stable descending sort
`weights.slice().sort((a, b) => b[1] - a[1])[0]`. -/
def maxWeightEntry (weights : List (StatKey × ℚ)) : Option (StatKey × ℚ) :=
  weights.foldl
    (fun best e => match best with
      | none => some e
      | some b => if b.2 < e.2 then some e else some b)
    none

/-- `calculateTaskStatGain` of `src/domain/progression.ts`.  The returned
`StatDelta` is an assoc list in insertion order. -/
def calculateTaskStatGain (xpGain : ℚ) (priority : Priority)
    (category : Option Category) (levelUps : ℤ) : List (StatKey × ℤ) :=
  let scaledPoints := xpGain / 36 * priorityMultiplier priority
  let basePoints := max 1 (min 4 (jround scaledPoints))
  let levelBonus := max 0 (min 2 levelUps)
  let totalPoints := basePoints + levelBonus
  let weights := normalizeStatWeights ((category.map fun c => c.statWeights).getD [])
  if weights = [] then [(StatKey.discipline, totalPoints)]
  else
    let alloc := weights.foldl
      (fun (acc : List (StatKey × ℤ) × ℤ) e =>
        let points := ⌊(totalPoints : ℚ) * e.2⌋
        if points ≤ 0 then acc else (upsertAddStat acc.1 e.1 points, acc.2 + points))
      ([], 0)
    let remainder := totalPoints - alloc.2
    if 0 < remainder then
      let primary := ((maxWeightEntry weights).map fun e => e.1).getD StatKey.discipline
      upsertAddStat alloc.1 primary remainder
    else alloc.1

/-- One `nextStats[stat] = (nextStats[stat] ?? 0) + Math.round(delta)`
step of `applyStatGains` (on the function model of the total record). -/
def addStat (st : StatKey → ℤ) (k : StatKey) (d : ℤ) : StatKey → ℤ :=
  fun k' => if k' = k then st k + d else st k'

/-- The stats loop of `applyStatGains`: skip non-positive deltas, add the
rest. -/
def applyGains (st : StatKey → ℤ) (gains : List (StatKey × ℤ)) : StatKey → ℤ :=
  gains.foldl (fun acc e => if e.2 ≤ 0 then acc else addStat acc e.1 e.2) st

/-- One `nextStats[stat] = Math.max(1, (nextStats[stat] ?? 1) - Math.round(delta))`
step of `revertStatGains`. -/
def subStat (st : StatKey → ℤ) (k : StatKey) (d : ℤ) : StatKey → ℤ :=
  fun k' => if k' = k then max 1 (st k - d) else st k'

/-- The stats loop of `revertStatGains`: skip non-positive deltas,
subtract the rest with a floor of 1. -/
def revertGains (st : StatKey → ℤ) (gains : List (StatKey × ℤ)) : StatKey → ℤ :=
  gains.foldl (fun acc e => if e.2 ≤ 0 then acc else subStat acc e.1 e.2) st

/-- `applyStatGains` of `src/domain/progression.ts`. -/
def applyStatGains (state : CharacterState) (gains : List (StatKey × ℤ)) : CharacterState :=
  { state with stats := applyGains state.stats gains }

/-- `revertStatGains` of `src/domain/progression.ts`. -/
def revertStatGains (state : CharacterState) (gains : List (StatKey × ℤ)) : CharacterState :=
  { state with stats := revertGains state.stats gains }

/-- The bootstrap character of `src/data/bootstrap.ts` (`baseCharacter`,
sans its storage id). -/
def baseCharacter : CharacterState :=
  { level := 1, xpCurrent := 0, xpLifetime := 0, seasonCap := 60,
    prestigeRank := 0, legacyPoints := 0, stats := fun _ => 5 }

/-- `StreakState` of `src/domain/types.ts`; the optional `yyyy-MM-dd`
day strings are modelled as optional epoch days. -/
structure StreakState where
  taskDays : ℤ
  focusDays : ℤ
  lastTaskDay : Option ℤ
  lastFocusDay : Option ℤ
  deriving DecidableEq, Repr

/-- `updateDayStreak` of `src/domain/streaks.ts`;
`differenceInCalendarDays(parseISO(today), parseISO(lastDay))` is the
difference of the two epoch days. -/
def updateDayStreak (current : ℤ) (lastDay : Option ℤ) (today : ℤ) : ℤ :=
  match lastDay with
  | none => 1
  | some lastDay =>
    let delta := today - lastDay
    if delta = 0 then current
    else if delta = 1 then current + 1
    else 1

/-- `updateTaskStreak` of `src/domain/streaks.ts`. -/
def updateTaskStreak (streak : StreakState) (today : ℤ) : StreakState :=
  { streak with
    taskDays := updateDayStreak streak.taskDays streak.lastTaskDay today
    lastTaskDay := some today }

/-- `updateFocusStreak` of `src/domain/streaks.ts`. -/
def updateFocusStreak (streak : StreakState) (today : ℤ) : StreakState :=
  { streak with
    focusDays := updateDayStreak streak.focusDays streak.lastFocusDay today
    lastFocusDay := some today }

/-- `DailyAggregate` of `src/domain/types.ts`; `categoryFocusMinutes`
keeps `Object.entries` insertion order as an assoc list. -/
structure DailyAggregate where
  date : ℤ
  focusMinutes : ℤ
  completions : ℤ
  xpGained : ℤ
  categoryFocusMinutes : List (String × ℤ)
  deriving DecidableEq, Repr

/-- The `EventType` union of `src/events/types.ts`. -/
inductive EventType where
  | taskCreated | taskUpdated | taskCompleted | taskReopened | taskDeleted
  | focusSessionStarted | focusSessionEnded
  | questGenerated | questCompleted
  | achievementProgressed | badgeUnlocked | perkUnlocked
  | levelUp | prestigeTriggered | categoryCreated | settingsUpdated
  deriving DecidableEq, Repr

/-- A dynamically typed payload field value. -/
inductive PValue where
  | str (s : String)
  | int (n : ℤ)
  | optStr (s : Option String)
  deriving DecidableEq, Repr

/-- The opaque event payload: a duck-typed object, modelled as an assoc
list of fields in insertion order. -/
abbrev Payload := List (String × PValue)

/-- The read `(payload as { achievementId?: string })?.achievementId`
performed by the snapshot builder: the `achievementId` field of the
payload when present with a string value. -/
def getAchievementId (p : Payload) : Option String :=
  match p.lookup "achievementId" with
  | some (.str s) => some s
  | _ => none

/-- `AppEvent` of `src/events/types.ts` (`occurredAt` as epoch ms). -/
structure AppEvent where
  eventId : String
  schemaVersion : ℤ
  eventType : EventType
  occurredAt : ℤ
  userId : String
  payload : Payload
  deriving DecidableEq

/-- Quest objective kinds. -/
inductive ObjectiveType where
  | taskCompletions | focusMinutes | categoryBalance
  deriving DecidableEq, Repr

/-- Quest kinds. -/
inductive QuestKind where
  | daily | weekly | storyline | boss
  deriving DecidableEq, Repr

/-- Quest status. -/
inductive QuestStatus where
  | active | complete
  deriving DecidableEq, Repr

/-- Quest reward (`Reward` of `src/domain/types.ts`). -/
structure QuestReward where
  xp : ℤ
  deriving DecidableEq, Repr

/-- `Quest` of `src/domain/types.ts`. -/
structure Quest where
  id : String
  kind : QuestKind
  title : String
  objectiveType : ObjectiveType
  objectiveCategoryId : Option String
  target : ℤ
  progress : ℤ
  reward : QuestReward
  status : QuestStatus
  deriving DecidableEq, Repr

/-- `SnapshotRange` of `src/events/types.ts`: an ISO timestamp range,
modelled in epoch ms. -/
structure SnapshotRange where
  rangeFrom : ℤ
  rangeTo : ℤ
  deriving DecidableEq, Repr

/-- `isInRange` of `src/snapshot/buildSnapshot.ts`. -/
def isInRange (dateMs : ℤ) (range : SnapshotRange) : Bool :=
  range.rangeFrom ≤ dateMs ∧ dateMs ≤ range.rangeTo

/-- One entry of `topCategoriesWeek`. -/
structure CategoryShare where
  category : String
  percentage : ℤ
  deriving DecidableEq, Repr

/-- `SocialSnapshot` of `src/events/types.ts`. -/
structure SocialSnapshot where
  level : ℤ
  prestigeRank : ℤ
  xpToday : ℤ
  xpWeek : ℤ
  focusMinutesToday : ℤ
  focusMinutesWeek : ℤ
  completionsToday : ℤ
  completionsWeek : ℤ
  taskStreak : ℤ
  focusStreak : ℤ
  topCategoriesWeek : List CategoryShare
  lastBadgeUnlocked : Option String
  activeQuestProgressPercent : ℤ
  deriving DecidableEq, Repr

/-- `SnapshotInput` of `src/snapshot/buildSnapshot.ts`. -/
structure SnapshotInput where
  range : SnapshotRange
  character : Option CharacterState
  streaks : Option StreakState
  daily : List DailyAggregate
  events : List AppEvent
  quests : List Quest

/-- `map[category] = (map[category] ?? 0) + minutes` on the assoc-list
model of a string-keyed record. -/
def upsertAddString (l : List (String × ℤ)) (s : String) (n : ℤ) : List (String × ℤ) :=
  if l.any fun e => e.1 = s then
    l.map fun e => if e.1 = s then (e.1, e.2 + n) else e
  else l ++ [(s, n)]

/-- Stable insertion into a descending-ordered list: the element goes
after all earlier elements of greater-or-equal key. -/
def insertDesc (key : α → ℤ) (a : α) : List α → List α
  | [] => [a]
  | b :: l => if key a ≤ key b then b :: insertDesc key a l else a :: b :: l

/-- Stable descending sort by an integer key: the embedding of the
(ES2019-stable) `Array.prototype.sort` with comparator `b - a` on keys. -/
def sortDesc (key : α → ℤ) (xs : List α) : List α :=
  xs.foldl (fun acc a => insertDesc key a acc) []

/-- The `lastBadge` selection of `buildSnapshotFromData`: the head of the
events filtered to in-range `BadgeUnlocked` and stably sorted by
descending `occurredAt`. -/
def lastBadgeEvent (range : SnapshotRange) (events : List AppEvent) : Option AppEvent :=
  (sortDesc (fun e => e.occurredAt)
    (events.filter fun e =>
      e.eventType = EventType.badgeUnlocked ∧ isInRange e.occurredAt range)).head?

/-- `buildSnapshotFromData` of `src/snapshot/buildSnapshot.ts`.  The
function reads the device clock twice (`format(new Date(), "yyyy-MM-dd")`
and `format(subDays(new Date(), 6), "yyyy-MM-dd")`); the ambient clock is
passed as the epoch day `today`, so `weekFrom = today - 6`. -/
def buildSnapshotFromData (today : ℤ) (input : SnapshotInput) : SocialSnapshot :=
  let weekFrom := today - 6
  let todayAggregate := input.daily.find? fun d => d.date = today
  let weekAggregates := input.daily.filter fun d => weekFrom ≤ d.date ∧ d.date ≤ today
  let totalCategoryWeek := weekAggregates.foldl
    (fun map d => d.categoryFocusMinutes.foldl
      (fun m e => upsertAddString m e.1 e.2) map)
    []
  let categoryTotalMinutes : ℤ := (totalCategoryWeek.map fun e => e.2).sum
  let topCategoriesWeek :=
    ((sortDesc (fun e => e.2) totalCategoryWeek).take 3).map fun e =>
      { category := e.1
        percentage :=
          if categoryTotalMinutes = 0 then 0
          else jround ((e.2 : ℚ) / (categoryTotalMinutes : ℚ) * 100) : CategoryShare }
  let lastBadge := lastBadgeEvent input.range input.events
  let activeQuestProgressPercent :=
    if input.quests.isEmpty then 0
    else
      jround
        ((input.quests.map fun q =>
            min 1 ((q.progress : ℚ) / (max 1 q.target : ℤ))).sum *
          (100 / (input.quests.length : ℚ)))
  { level := ((input.character.map fun c => c.level).getD 1)
    prestigeRank := ((input.character.map fun c => c.prestigeRank).getD 0)
    xpToday := ((todayAggregate.map fun d => d.xpGained).getD 0)
    xpWeek := (weekAggregates.map fun d => d.xpGained).sum
    focusMinutesToday := ((todayAggregate.map fun d => d.focusMinutes).getD 0)
    focusMinutesWeek := (weekAggregates.map fun d => d.focusMinutes).sum
    completionsToday := ((todayAggregate.map fun d => d.completions).getD 0)
    completionsWeek := (weekAggregates.map fun d => d.completions).sum
    taskStreak := ((input.streaks.map fun s => s.taskDays).getD 0)
    focusStreak := ((input.streaks.map fun s => s.focusDays).getD 0)
    topCategoriesWeek := topCategoriesWeek
    lastBadgeUnlocked := lastBadge.bind fun e => getAchievementId e.payload
    activeQuestProgressPercent := activeQuestProgressPercent }

/-- Task status. -/
inductive TaskStatus where
  | todo | done
  deriving DecidableEq, Repr

/-- `TaskSubtask` of `src/domain/types.ts`. -/
structure TaskSubtask where
  id : String
  title : String
  done : Bool
  deriving DecidableEq, Repr

/-- `TaskRecurrence` of `src/domain/types.ts`. -/
inductive TaskRecurrence where
  | dailyInterval (intervalDays : ℤ)
  | weeklyDays (intervalWeeks : ℤ) (weekdays : List ℤ)
  deriving DecidableEq, Repr

/-- The stored `completionReward` snapshot
(`Pick<TaskCompletionReward, "xpGain" | "statGains">`). -/
structure CompletionReward where
  xpGain : ℤ
  statGains : List (StatKey × ℤ)
  deriving DecidableEq, Repr

/-- `TaskCompletionReward` of `src/domain/types.ts`. -/
structure TaskCompletionReward where
  xpGain : ℤ
  statGains : List (StatKey × ℤ)
  levelBefore : ℤ
  levelAfter : ℤ
  deriving DecidableEq, Repr

/-- `Task` of `src/domain/types.ts` (timestamps in epoch ms). -/
structure Task where
  id : String
  title : String
  categoryId : String
  status : TaskStatus
  priority : Priority
  deadlineAt : Option ℤ
  recurrenceRule : Option String
  estimateMinutes : ℤ
  tags : List String
  notes : String
  subtaskIds : List String
  subtasks : Option (List TaskSubtask)
  createdAt : ℤ
  updatedAt : ℤ
  completedAt : Option ℤ
  recurrence : Option TaskRecurrence
  completionReward : Option CompletionReward
  deriving DecidableEq, Repr

/-- Focus session type (`"work" | "break" | "long_break"`; `"break"` is a
Lean keyword, so it is spelled `shortBreak` here). -/
inductive SessionType where
  | work | shortBreak | longBreak
  deriving DecidableEq, Repr

/-- `FocusSession` of `src/domain/types.ts`. -/
structure FocusSession where
  id : String
  taskId : Option String
  categoryId : Option String
  startedAt : ℤ
  endedAt : Option ℤ
  durationMin : ℤ
  type : SessionType
  completed : Bool
  deriving DecidableEq, Repr

/-- Achievement requirement kinds. -/
inductive RequirementType where
  | focusMinutesTotal | taskStreak | tasksCompleted
  deriving DecidableEq, Repr

/-- `Achievement` of `src/domain/types.ts` (catalog fields irrelevant to
the sync logic are kept to `title`). -/
structure Achievement where
  id : String
  title : String
  requirementType : RequirementType
  requirementValue : ℤ
  deriving DecidableEq, Repr

/-- `AchievementProgress` of `src/domain/types.ts`. -/
structure AchievementProgress where
  id : String
  value : ℤ
  unlockedAt : Option ℤ
  deriving DecidableEq, Repr

/-- The Dexie database of `src/data/db.ts`, as a record of row lists.
The singleton tables (`character`, `streaks` keyed `"main"`, the user
profile reduced to its `userId`) are modelled as options. -/
structure Db where
  profile : Option String
  tasks : List Task
  categories : List Category
  quests : List Quest
  achievements : List Achievement
  achievementProgress : List AchievementProgress
  focusSessions : List FocusSession
  character : Option CharacterState
  streak : Option StreakState
  analyticsDaily : List DailyAggregate
  eventLog : List AppEvent

/-- Dexie `put` (upsert by primary key): replace the rows carrying the
key, append when absent. -/
def putByKey {α : Type} {β : Type} [DecidableEq β] (k : α → β) (l : List α) (a : α) : List α :=
  if l.any fun x => k x = k a then
    l.map fun x => if k x = k a then a else x
  else l ++ [a]

/-- `appendEvent` of `src/events/eventService.ts`: stamp a fresh id,
`schemaVersion = 1` and the current timestamp, and append to the log. -/
def appendEvent (eventId : String) (now : ℤ) (userId : String)
    (eventType : EventType) (payload : Payload) (db : Db) : Db :=
  { db with
    eventLog := db.eventLog ++
      [{ eventId := eventId, schemaVersion := 1, eventType := eventType,
         occurredAt := now, userId := userId, payload := payload }] }

/-- `upsertDailyAggregate` of `src/analytics/projections.ts`: the deltas
(defaulting to 0 when omitted at a call site) are passed positionally as
`dFocus`, `dCompletions`, `dXp`. -/
def upsertDailyAggregate (occurredAt : ℤ) (dFocus dCompletions dXp : ℤ)
    (categoryId : Option String) (categoryFocusMinutes : ℤ) (db : Db) : Db :=
  let date := msToDay occurredAt
  let existing := db.analyticsDaily.find? fun d => d.date = date
  let aggregate := existing.getD
    { date := date, focusMinutes := 0, completions := 0, xpGained := 0,
      categoryFocusMinutes := [] }
  let aggregate :=
    { aggregate with
      focusMinutes := aggregate.focusMinutes + dFocus
      completions := aggregate.completions + dCompletions
      xpGained := aggregate.xpGained + dXp }
  let aggregate :=
    match categoryId with
    | some cid =>
      if 0 < categoryFocusMinutes then
        { aggregate with
          categoryFocusMinutes :=
            upsertAddString aggregate.categoryFocusMinutes cid categoryFocusMinutes }
      else aggregate
    | none => aggregate
  { db with analyticsDaily := putByKey (fun d => d.date) db.analyticsDaily aggregate }

/-- `applyTaskAnalytics` of `src/analytics/projections.ts`. -/
def applyTaskAnalytics (task : Task) (xp : ℤ) (db : Db) : Db :=
  upsertDailyAggregate (task.completedAt.getD task.updatedAt) 0 1 xp none 0 db

/-- `TaskXpInput` of `src/domain/progression.ts`. -/
structure TaskXpInput where
  priority : Priority
  deadlineSoon : Bool
  completedSubtasks : ℤ
  estimateMinutes : ℤ
  noveltyFactor : Option ℚ
  sameCategoryCountToday : ℤ
  repeatedTitleCount24h : ℤ
  dailyXpBefore : ℤ
  level : ℤ
  categoryMultiplier : Option ℚ
  deriving DecidableEq, Repr

/-- The argument record that `recordTaskCompletion`
(`src/events/eventService.ts`, lines 39-64) assembles and passes to
`calculateTaskXp`: the same-category count restricted to today, the
repeated-title count over all stored completions, `dailyXpBefore = 0`,
and the category multiplier defaulted to 1. -/
def buildTaskXpInput (now : ℤ) (db : Db) (character : CharacterState) (task : Task) :
    TaskXpInput :=
  let today := msToDay now
  let sameCategoryCountToday :=
    (db.tasks.filter fun t =>
      decide (t.categoryId = task.categoryId) &&
        ((t.completedAt.map fun c => decide (msToDay c = today)).getD false)).length
  let repeatedTitleCount24h :=
    (db.tasks.filter fun t => t.title = task.title ∧ t.completedAt.isSome).length
  let category := db.categories.find? fun c => c.id = task.categoryId
  { priority := task.priority
    deadlineSoon := task.deadlineAt.isSome
    completedSubtasks := (task.subtaskIds.length : ℤ)
    estimateMinutes := task.estimateMinutes
    noveltyFactor := none
    sameCategoryCountToday := (sameCategoryCountToday : ℤ)
    repeatedTitleCount24h := (repeatedTitleCount24h : ℤ)
    dailyXpBefore := 0
    level := character.level
    categoryMultiplier := some ((category.map fun c => c.xpMultiplier).getD 1) }

/-- `recordTaskCompletion` of `src/events/eventService.ts`.

`calculateTaskXp` itself multiplies the base by
`clamp(ln(1 + estimateMinutes/15), 0.6, 1.8)` and by `0.8 ^
repeatedTitleCount24h` and finally takes `Math.max(1, Math.round(xp))`;
the transcendental core is not representable by exact executable
arithmetic, so the function is abstracted as the parameter `xpOf`, about
which the theorems below assume only what the source guarantees: it
returns an integer `≥ 1`.  Everything around the call is embedded from
the source. -/
def recordTaskCompletion (xpOf : TaskXpInput → ℤ) (now : ℤ) (eventId : String)
    (userId : String) (task : Task) (db : Db) : Option TaskCompletionReward × Db :=
  match db.character with
  | none => (none, db)
  | some character =>
    let streak := db.streak.getD
      { taskDays := 0, focusDays := 0, lastTaskDay := none, lastFocusDay := none }
    let today := msToDay now
    let category := db.categories.find? fun c => c.id = task.categoryId
    let xp := xpOf (buildTaskXpInput now db character task)
    let leveled := applyXp character xp
    let levelUps := max 0 (leveled.level - character.level)
    let statGains := calculateTaskStatGain (xp : ℚ) task.priority category levelUps
    let next := applyStatGains leveled statGains
    let db1 := { db with character := some next }
    let updatedStreak := updateTaskStreak streak today
    let db2 := { db1 with streak := some updatedStreak }
    let db3 := appendEvent eventId now userId EventType.taskCompleted
      [("taskId", PValue.str task.id), ("xp", PValue.int xp),
       ("categoryId", PValue.str task.categoryId)] db2
    let db4 := applyTaskAnalytics task xp db3
    (some { xpGain := xp, statGains := statGains,
            levelBefore := character.level, levelAfter := next.level }, db4)

/-- `toDateOnly` of the store (`setHours(0,0,0,0)`), under the UTC
convention: truncate a timestamp to the start of its day. -/
def toDateOnly (t : ℤ) : ℤ := t - t.emod msPerDay

/-- `withTimeFrom` of the store: the target's calendar day with the
source's time of day. -/
def withTimeFrom (source target : ℤ) : ℤ := toDateOnly target + source.emod msPerDay

/-- JavaScript `Date.prototype.getDay` under the UTC convention
(1970-01-01 was a Thursday, weekday 4). -/
def getDayOfWeek (t : ℤ) : ℤ := (Int.fdiv (toDateOnly t) msPerDay + 4).emod 7

/-- Ascending stable sort, via `sortDesc` on the negated key. -/
def sortAsc (key : α → ℤ) (xs : List α) : List α := sortDesc (fun a => -(key a)) xs

/-- `recurrenceLabel` of the store (`src/data/store.ts`). -/
def recurrenceLabel (task : Task) : Option String :=
  match task.recurrence with
  | none => task.recurrenceRule
  | some (.dailyInterval intervalDays) =>
    let n := max 1 intervalDays
    some (if n = 1 then "Every day" else s!"Every {n} days")
  | some (.weeklyDays intervalWeeks weekdays) =>
    let labels := ["Sun", "Mon", "Tue", "Wed", "Thu", "Fri", "Sat"]
    let every := max 1 intervalWeeks
    let days := (sortAsc id weekdays).map fun day =>
      if 0 ≤ day ∧ day ≤ 6 then labels.getD day.toNat "" else ""
    let dayText := String.intercalate ", " (days.filter fun d => d ≠ "")
    some (if every = 1 then s!"Weekly: {dayText}" else s!"Every {every} weeks: {dayText}")

/-- `nextRecurringDeadline` of the store: next deadline after a completed
recurring task (the `NaN` guards of the source are vacuous on integer
timestamps). -/
def nextRecurringDeadline (task : Task) (completedAt : ℤ) : Option ℤ :=
  match task.recurrence with
  | none => none
  | some (.dailyInterval intervalDays) =>
    let base := task.deadlineAt.getD completedAt
    let n := max 1 intervalDays
    some (withTimeFrom base (base + n * msPerDay))
  | some (.weeklyDays intervalWeeks weekdays) =>
    let base := task.deadlineAt.getD completedAt
    let fromTs := completedAt
    let iw := max 1 intervalWeeks
    let wds := sortAsc id ((weekdays.filter fun d => 0 ≤ d ∧ d ≤ 6).dedup)
    if wds = [] then none
    else
      let anchor := toDateOnly base - getDayOfWeek base * msPerDay
      (List.range 80).findSome? fun cycle =>
        wds.findSome? fun weekday =>
          let weekStart := anchor + (cycle : ℤ) * iw * 7 * msPerDay
          let candidate := withTimeFrom base (weekStart + weekday * msPerDay)
          if fromTs < candidate then some candidate else none

/-- The per-quest recompute of `syncQuestProgress` (the body of its
quest loop): derive `rawProgress` for the quest's objective, clamp to
`[_, target]`, and flip the status when the target is reached. -/
def questFix (completedTaskCount completedFocusMinutes : ℤ)
    (completedByCategory : String → ℤ) (distinctCategoryCount : ℤ)
    (quest : Quest) : Quest :=
  let rawProgress : ℤ :=
    match quest.objectiveType with
    | .taskCompletions => completedTaskCount
    | .focusMinutes => completedFocusMinutes
    | .categoryBalance =>
      match quest.objectiveCategoryId with
      | some cid => completedByCategory cid
      | none => distinctCategoryCount
  let progress := min quest.target rawProgress
  let status := if quest.target ≤ progress then QuestStatus.complete else QuestStatus.active
  { quest with progress := progress, status := status }

/-- The diff-before-write check of `syncQuestProgress`: emit the
recomputed quest only when its progress or status changed. -/
def questStep (completedTaskCount completedFocusMinutes : ℤ)
    (completedByCategory : String → ℤ) (distinctCategoryCount : ℤ)
    (quest : Quest) : Option Quest :=
  let next := questFix completedTaskCount completedFocusMinutes completedByCategory
    distinctCategoryCount quest
  if next.progress ≠ quest.progress ∨ next.status ≠ quest.status then some next else none

/-- `syncQuestProgress` of the store: recompute every quest's progress
from the current task/session tables, clamp to the target, and persist
only the quests whose progress or status changed (diff-before-write).
Returns the written rows together with the updated database. -/
def syncQuestProgress (db : Db) : List Quest × Db :=
  let completedTasks := db.tasks.filter fun t => t.status = TaskStatus.done
  let completedTaskCount : ℤ := completedTasks.length
  let completedFocusMinutes :=
    ((db.focusSessions.filter fun s => s.type = SessionType.work).map
      fun s => s.durationMin).sum
  let completedByCategory : String → ℤ := fun cid =>
    (completedTasks.filter fun t => t.categoryId = cid).length
  let distinctCategoryCount : ℤ := (completedTasks.map fun t => t.categoryId).dedup.length
  let updates := db.quests.filterMap
    (questStep completedTaskCount completedFocusMinutes completedByCategory
      distinctCategoryCount)
  (updates, { db with quests := updates.foldl (putByKey fun q => q.id) db.quests })

/-- The `toProgressRecord` lookup of the store: rows are keyed by id with
later rows overwriting earlier ones, so a lookup returns the last row
with the given id. -/
def lookupProgress (rows : List AchievementProgress) (id : String) :
    Option AchievementProgress :=
  rows.reverse.find? fun r => r.id = id

/-- The metric matching an achievement's requirement type
(`syncAchievementProgress` loop). -/
def achievementValue (completedTasks focusMinutesTotal taskStreak : ℤ)
    (achievement : Achievement) : ℤ :=
  match achievement.requirementType with
  | .tasksCompleted => completedTasks
  | .focusMinutesTotal => focusMinutesTotal
  | .taskStreak => taskStreak

/-- The sticky-unlock computation
`existing?.unlockedAt ?? (value >= requirement ? now : undefined)`. -/
def unlockNext (prev : Option ℤ) (requirementValue value now : ℤ) : Option ℤ :=
  match prev with
  | some t => some t
  | none => if requirementValue ≤ value then some now else none

/-- The recomputed progress row for one achievement: current metric
value, with `unlockedAt` sticky once set. -/
def achievementRow (completedTasks focusMinutesTotal taskStreak : ℤ)
    (rows : List AchievementProgress) (now : ℤ) (achievement : Achievement) :
    AchievementProgress :=
  let value := achievementValue completedTasks focusMinutesTotal taskStreak achievement
  let existing := lookupProgress rows achievement.id
  { id := achievement.id, value := value,
    unlockedAt := unlockNext (existing.bind fun e => e.unlockedAt)
      achievement.requirementValue value now }

/-- The diff-before-write check of `syncAchievementProgress`: emit the
recomputed row only when there was none or its value/unlock state
changed. -/
def achievementStep (completedTasks focusMinutesTotal taskStreak : ℤ)
    (rows : List AchievementProgress) (now : ℤ) (achievement : Achievement) :
    Option AchievementProgress :=
  let next := achievementRow completedTasks focusMinutesTotal taskStreak rows now
    achievement
  match lookupProgress rows achievement.id with
  | some e =>
    if e.value ≠ next.value ∨ e.unlockedAt ≠ next.unlockedAt then some next else none
  | none => some next

/-- `syncAchievementProgress` of the store: recompute each achievement's
metric from the current entities/streak, keep `unlockedAt` sticky once
set, and persist only changed rows.  Returns the written rows together
with the updated database. -/
def syncAchievementProgress (now : ℤ) (db : Db) : List AchievementProgress × Db :=
  let completedTasks : ℤ := (db.tasks.filter fun t => t.status = TaskStatus.done).length
  let focusMinutesTotal :=
    ((db.focusSessions.filter fun s => s.type = SessionType.work).map
      fun s => s.durationMin).sum
  let taskStreak := ((db.streak.map fun s => s.taskDays).getD 0)
  let nextRows := db.achievements.filterMap
    (achievementStep completedTasks focusMinutesTotal taskStreak
      db.achievementProgress now)
  (nextRows,
    { db with
      achievementProgress := nextRows.foldl (putByKey fun r => r.id) db.achievementProgress })
/-- `completeTask` of the store (`src/data/store.ts`): mark the task
done, run `recordTaskCompletion`, store the `completionReward` snapshot
on the task, spawn the next occurrence of a recurring task, and re-run
the quest/achievement syncs.  Fresh ids (`makeId()` calls) are supplied
by `ids`: `ids 0` for the `TaskCompleted` event, `ids 1` for the spawned
task, `ids (2+k)` for its cloned subtasks. -/
def completeTask (xpOf : TaskXpInput → ℤ) (now : ℤ) (ids : ℕ → String)
    (taskId : String) (db : Db) : Option TaskCompletionReward × Db :=
  match db.profile with
  | none => (none, db)
  | some userId =>
    match db.tasks.find? fun t => t.id = taskId with
    | none => (none, db)
    | some task =>
      if task.status = TaskStatus.done then (none, db)
      else
        let updated := { task with
          status := TaskStatus.done
          completedAt := some now
          updatedAt := now }
        let r := recordTaskCompletion xpOf now (ids 0) userId updated db
        let reward := r.1
        let completionReward :=
          match reward with
          | some rw =>
            if 0 < rw.xpGain then
              some { xpGain := rw.xpGain, statGains := rw.statGains : CompletionReward }
            else none
          | none => none
        let completedTask := { updated with completionReward := completionReward }
        let db2 := { r.2 with tasks := putByKey (fun t => t.id) r.2.tasks completedTask }
        let db3 :=
          if completedTask.recurrence.isSome then
            let nextDeadline := nextRecurringDeadline completedTask now
            let clonedSubtasks := (completedTask.subtasks.getD []).enum.map fun e =>
              { e.2 with id := ids (2 + e.1), done := false }
            let nextTask := { completedTask with
              id := ids 1
              status := TaskStatus.todo
              createdAt := now
              updatedAt := now
              completedAt := none
              completionReward := none
              deadlineAt := nextDeadline
              recurrenceRule := recurrenceLabel completedTask
              subtaskIds := clonedSubtasks.map fun s => s.id
              subtasks := some clonedSubtasks }
            { db2 with tasks := db2.tasks ++ [nextTask] }
          else db2
        let db4 := (syncQuestProgress db3).2
        let db5 := (syncAchievementProgress now db4).2
        (reward, db5)

/-- `reopenTask` of the store: revert the stored completion reward on the
character, flip the task back to todo, decrement the completion day's
aggregate, append a `TaskReopened` event and re-run the syncs.  `eventId`
supplies the `makeId()` for the appended event. -/
def reopenTask (now : ℤ) (eventId : String) (taskId : String) (db : Db) : Db :=
  match db.profile with
  | none => db
  | some userId =>
    match db.tasks.find? fun t => t.id = taskId with
    | none => db
    | some task =>
      if task.status ≠ TaskStatus.done then db
      else
        let completedAt := task.completedAt
        let completionReward := task.completionReward
        let db1 :=
          match completionReward with
          | some rw =>
            match db.character with
            | some character =>
              let reverted := revertStatGains (removeXp character rw.xpGain) rw.statGains
              { db with character := some reverted }
            | none => db
          | none => db
        let updated := { task with
          status := TaskStatus.todo
          completedAt := none
          completionReward := none
          updatedAt := now }
        let db2 := { db1 with tasks := putByKey (fun t => t.id) db1.tasks updated }
        let db3 :=
          match completedAt with
          | some c =>
            upsertDailyAggregate c 0 (-1)
              (match completionReward with
               | some rw => if rw.xpGain = 0 then 0 else -rw.xpGain
               | none => 0)
              none 0 db2
          | none => db2
        let db4 := appendEvent eventId now userId EventType.taskReopened
          [("taskId", PValue.str taskId)] db3
        let db5 := (syncQuestProgress db4).2
        (syncAchievementProgress now db5).2

/-- The `CharacterState` invariant of the spec:
`xpCurrent < xpToNext(level)` whenever `level < seasonCap`. -/
def charInv (s : CharacterState) : Prop :=
  s.level < s.seasonCap → s.xpCurrent < xpToNext s.level

instance (s : CharacterState) : Decidable (charInv s) := by
  unfold charInv; infer_instance

theorem applyXpGo_post (cap : ℤ) :
    ∀ (fuel : ℕ) (level xp : ℤ), (cap - level).toNat ≤ fuel →
      (applyXpGo cap fuel level xp).2 < xpToNext (applyXpGo cap fuel level xp).1 ∨
        cap ≤ (applyXpGo cap fuel level xp).1 := by
  intro fuel
  induction fuel with
  | zero =>
    intro level xp h
    have : cap ≤ level := by omega
    right
    simpa [applyXpGo] using this
  | succ n ih =>
    intro level xp h
    by_cases hg : xpToNext level ≤ xp ∧ level < cap
    · have hrec : (cap - (level + 1)).toNat ≤ n := by omega
      have := ih (level + 1) (xp - xpToNext level) hrec
      simpa [applyXpGo, hg] using this
    · have : xp < xpToNext level ∨ cap ≤ level := by
        rcases not_and_or.mp hg with h1 | h2
        · exact Or.inl (by omega)
        · exact Or.inr (by omega)
      simpa [applyXpGo, hg] using this

theorem removeXpGo_post :
    ∀ (fuel : ℕ) (level xp : ℤ), (level - 1).toNat ≤ fuel → 1 ≤ level →
      1 ≤ (removeXpGo fuel level xp).1 ∧
        ((removeXpGo fuel level xp).2 < xpToNext (removeXpGo fuel level xp).1 ∨
          ((removeXpGo fuel level xp).1 = level ∧ (removeXpGo fuel level xp).2 = xp) ∨
          ((removeXpGo fuel level xp).1 = 1 ∧ (removeXpGo fuel level xp).2 < 0)) := by
  intro fuel
  induction fuel with
  | zero =>
    intro level xp h hL
    refine ⟨by simpa [removeXpGo] using hL, ?_⟩
    right; left
    simp [removeXpGo]
  | succ n ih =>
    intro level xp h hL
    by_cases hg : xp < 0 ∧ 1 < level
    · have hrec : (level - 1 - 1).toNat ≤ n := by omega
      have hL1 : (1 : ℤ) ≤ level - 1 := by omega
      have hstep : xp + xpToNext (level - 1) < xpToNext (level - 1) := by
        have := hg.1; omega
      have := ih (level - 1) (xp + xpToNext (level - 1)) hrec hL1
      rcases this with ⟨h1, h2⟩
      refine ⟨by simpa [removeXpGo, hg] using h1, ?_⟩
      rcases h2 with hlt | ⟨he1, he2⟩ | hfl
      · left; simpa [removeXpGo, hg] using hlt
      · left
        have : (removeXpGo n (level - 1) (xp + xpToNext (level - 1))).2 <
            xpToNext (removeXpGo n (level - 1) (xp + xpToNext (level - 1))).1 := by
          rw [he1, he2]; exact hstep
        simpa [removeXpGo, hg] using this
      · right; right; simpa [removeXpGo, hg] using hfl
    · refine ⟨by simpa [removeXpGo, hg] using hL, ?_⟩
      right; left
      simp [removeXpGo, hg]

/-- C6.  The invariant `xpCurrent < xpToNext(level)` (whenever
`level < seasonCap`) holds for the bootstrap character and is preserved
by `applyXp` (for non-negative gains), `removeXp` (for every loss) and
`prestige`, from any state satisfying the invariant with `level ≥ 1` and
`xpCurrent ≥ 0`. -/
theorem claim6_xp_invariant :
    charInv baseCharacter ∧
    (∀ (s : CharacterState) (g : ℤ), 1 ≤ s.level → 0 ≤ s.xpCurrent → charInv s →
      0 ≤ g → charInv (applyXp s g)) ∧
    (∀ (s : CharacterState) (l : ℤ), 1 ≤ s.level → 0 ≤ s.xpCurrent → charInv s →
      charInv (removeXp s l)) ∧
    (∀ (s : CharacterState), 1 ≤ s.level → 0 ≤ s.xpCurrent → charInv s →
      charInv (prestige s)) := by
  refine ⟨?_, ?_, ?_, ?_⟩
  · intro h
    show (0 : ℤ) < xpToNext 1
    exact xpToNext_pos 1 (by norm_num)
  · intro s g _ _ _ _
    intro hlt
    have := applyXpGo_post s.seasonCap (s.seasonCap - s.level).toNat s.level
      (s.xpCurrent + g) (le_refl _)
    rcases this with h | h
    · exact h
    · exact absurd hlt (by simp only [applyXp] at hlt ⊢; omega)
  · intro s l hL _ hinv
    have hpost := removeXpGo_post (s.level - 1).toNat s.level
      (s.xpCurrent - max 0 l) (le_refl _) hL
    rcases hpost with ⟨h1, h2⟩
    intro hlt
    simp only [removeXp] at hlt ⊢
    set r := removeXpGo (s.level - 1).toNat s.level (s.xpCurrent - max 0 l) with hr
    by_cases hneg : r.2 < 0
    · simp only [hneg, if_pos]
      exact xpToNext_pos r.1 (by omega)
    · simp only [hneg, if_neg, if_false]
      rcases h2 with hlt2 | ⟨he1, he2⟩ | ⟨he1, he2⟩
      · exact hlt2
      · rw [he1, he2]
        have hmax : (0 : ℤ) ≤ max 0 l := le_max_left 0 l
        have : s.level < s.seasonCap := by rw [he1] at hlt; exact hlt
        have := hinv this
        omega
      · omega
  · intro s _ _ _
    intro hlt
    show (0 : ℤ) < xpToNext 1
    exact xpToNext_pos 1 (by norm_num)

/-- Witness for C6 at concrete states. -/
theorem claim6_witness :
    ((1 : ℤ) ≤ baseCharacter.level ∧ 0 ≤ baseCharacter.xpCurrent ∧
      charInv baseCharacter ∧ (0 : ℤ) ≤ 200) ∧
    charInv (applyXp baseCharacter 200) ∧
    charInv (removeXp baseCharacter 50) ∧
    charInv (prestige baseCharacter) :=
  ⟨⟨by decide, by decide, by decide, by decide⟩,
    claim6_xp_invariant.2.1 baseCharacter 200 (by decide) (by decide) (by decide) (by decide),
    claim6_xp_invariant.2.2.1 baseCharacter 50 (by decide) (by decide) (by decide),
    claim6_xp_invariant.2.2.2 baseCharacter (by decide) (by decide) (by decide)⟩

/-- C7.  `updateDayStreak` (through its wrappers `updateTaskStreak` and
`updateFocusStreak`): a missing `lastDay` yields 1; a calendar-day
difference of 0 leaves the counter unchanged; a difference of 1
increments it; any other difference resets it to 1; `lastDay` is set to
`today` in every case.  Concretely (epoch days 20494/20495/20497 are
2026-02-10, 2026-02-11 and 2026-02-13; 20496 is 2026-02-12): completions
on those three days from empty state yield task streaks 1, 2, 1, and a
same-day focus repeat leaves the focus streak at 2. -/
theorem claim7_streaks :
    (∀ (s : StreakState) (today : ℤ), s.lastTaskDay = none →
      (updateTaskStreak s today).taskDays = 1) ∧
    (∀ (s : StreakState) (today d : ℤ), s.lastTaskDay = some d → today - d = 0 →
      (updateTaskStreak s today).taskDays = s.taskDays) ∧
    (∀ (s : StreakState) (today d : ℤ), s.lastTaskDay = some d → today - d = 1 →
      (updateTaskStreak s today).taskDays = s.taskDays + 1) ∧
    (∀ (s : StreakState) (today d : ℤ), s.lastTaskDay = some d → today - d ≠ 0 →
      today - d ≠ 1 → (updateTaskStreak s today).taskDays = 1) ∧
    (∀ (s : StreakState) (today : ℤ), (updateTaskStreak s today).lastTaskDay = some today ∧
      (updateFocusStreak s today).lastFocusDay = some today) ∧
    (∀ (s : StreakState) (today d : ℤ), s.lastFocusDay = some d → today - d = 0 →
      (updateFocusStreak s today).focusDays = s.focusDays) ∧
    ((updateTaskStreak (updateTaskStreak (updateTaskStreak
        { taskDays := 0, focusDays := 0, lastTaskDay := none, lastFocusDay := none }
        20494) 20495) 20497).taskDays = 1 ∧
      (updateTaskStreak
        { taskDays := 0, focusDays := 0, lastTaskDay := none, lastFocusDay := none }
        20494).taskDays = 1 ∧
      (updateTaskStreak (updateTaskStreak
        { taskDays := 0, focusDays := 0, lastTaskDay := none, lastFocusDay := none }
        20494) 20495).taskDays = 2 ∧
      (updateFocusStreak
        { taskDays := 0, focusDays := 2, lastTaskDay := none, lastFocusDay := some 20496 }
        20496).focusDays = 2) := by
  refine ⟨?_, ?_, ?_, ?_, ?_, ?_, by decide⟩
  · intro s today h
    simp [updateTaskStreak, updateDayStreak, h]
  · intro s today d h h0
    simp [updateTaskStreak, updateDayStreak, h, h0]
  · intro s today d h h1
    have h0 : today - d ≠ 0 := by omega
    simp [updateTaskStreak, updateDayStreak, h, h0, h1]
  · intro s today d h h0 h1
    simp [updateTaskStreak, updateDayStreak, h, h0, h1]
  · intro s today
    exact ⟨by simp [updateTaskStreak], by simp [updateFocusStreak]⟩
  · intro s today d h h0
    simp [updateFocusStreak, updateDayStreak, h, h0]

/-- Witness for C7: the increment case at a concrete state. -/
theorem claim7_witness :
    ((StreakState.mk 3 0 (some 20494) none).lastTaskDay = some 20494 ∧
      (20495 : ℤ) - 20494 = 1) ∧
    (updateTaskStreak (StreakState.mk 3 0 (some 20494) none) 20495).taskDays = 3 + 1 :=
  ⟨⟨by decide, by decide⟩,
    claim7_streaks.2.2.1 (StreakState.mk 3 0 (some 20494) none) 20495 20494
      (by decide) (by decide)⟩

/-- The level-40 character of the prestige example (prestigeRank 1,
legacyPoints 2). -/
def prestigeSample : CharacterState :=
  { level := 40, xpCurrent := 80, xpLifetime := 5000, seasonCap := 60,
    prestigeRank := 1, legacyPoints := 2, stats := fun _ => 10 }

/-- C9.  `prestige` resets level to 1 and xpCurrent to 0, increments
`prestigeRank` by exactly 1, adds exactly `max(0, floor((level-20)/5))`
(computed from the pre-reset level) to `legacyPoints`, and leaves
`stats`, `xpLifetime` and `seasonCap` unchanged; concretely, a level-40
character with prestigeRank 1 and legacyPoints 2 ends with prestigeRank 2
and legacyPoints 6. -/
theorem claim9_prestige :
    (∀ s : CharacterState,
      (prestige s).level = 1 ∧
      (prestige s).xpCurrent = 0 ∧
      (prestige s).prestigeRank = s.prestigeRank + 1 ∧
      (prestige s).legacyPoints = s.legacyPoints + max 0 (Int.fdiv (s.level - 20) 5) ∧
      (prestige s).stats = s.stats ∧
      (prestige s).xpLifetime = s.xpLifetime ∧
      (prestige s).seasonCap = s.seasonCap) ∧
    (prestige prestigeSample).prestigeRank = 2 ∧
    (prestige prestigeSample).legacyPoints = 6 := by
  refine ⟨?_, by decide, by decide⟩
  intro s
  refine ⟨rfl, rfl, rfl, rfl, rfl, rfl, rfl⟩

/-- Total of the per-stat deltas of a `StatDelta` assoc list. -/
def sumVals (l : List (StatKey × ℤ)) : ℤ := (l.map fun e => e.2).sum

theorem map_upsert_id (l : List (StatKey × ℤ)) (s : StatKey) (n : ℤ)
    (h : ∀ e ∈ l, e.1 ≠ s) :
    (l.map fun e => if e.1 = s then (e.1, e.2 + n) else e) = l := by
  induction l with
  | nil => rfl
  | cons a t ih =>
    have ha : a.1 ≠ s := h a (by simp)
    simp only [List.map_cons, if_neg ha]
    rw [ih fun e he => h e (by simp [he])]

theorem sumVals_upsertAddStat (s : StatKey) (n : ℤ) :
    ∀ (l : List (StatKey × ℤ)), (l.map Prod.fst).Nodup →
      sumVals (upsertAddStat l s n) = sumVals l + n := by
  intro l
  induction l with
  | nil =>
    intro _
    simp [upsertAddStat, sumVals]
  | cons a t ih =>
    intro h
    by_cases ha : a.1 = s
    · have hany : ((a :: t).any fun e => e.1 = s) = true := by simp [ha]
      have htail : ∀ e ∈ t, e.1 ≠ s := by
        intro e he hes
        have : a.1 ∉ t.map Prod.fst := (List.nodup_cons.mp h).1
        exact this (ha ▸ hes ▸ List.mem_map_of_mem Prod.fst he)
      simp only [upsertAddStat, hany, if_true, List.map_cons, if_pos ha,
        map_upsert_id t s n htail, sumVals, List.sum_cons]
      ring
    · by_cases ht : (t.any fun e => e.1 = s) = true
      · have hany : ((a :: t).any fun e => e.1 = s) = true := by
          simp [List.any_cons, ht]
        have hn := (List.nodup_cons.mp h).2
        have hmain := ih hn
        simp only [upsertAddStat, ht, if_true] at hmain
        simp only [upsertAddStat, hany, if_true, List.map_cons, if_neg ha]
        simp only [sumVals, List.map_cons, List.sum_cons] at hmain ⊢
        omega
      · have ht' : (t.any fun e => e.1 = s) = false := by
          revert ht; cases t.any fun e => e.1 = s <;> simp
        have hany : ((a :: t).any fun e => e.1 = s) = false := by
          simp [List.any_cons, ha, ht']
        simp only [upsertAddStat, hany, Bool.false_eq_true, if_false, sumVals,
          List.map_append, List.sum_append, List.map_cons, List.sum_cons,
          List.map_nil, List.sum_nil]
        ring

theorem keysNodup_upsertAddStat (l : List (StatKey × ℤ)) (s : StatKey) (n : ℤ)
    (h : (l.map Prod.fst).Nodup) :
    ((upsertAddStat l s n).map Prod.fst).Nodup := by
  unfold upsertAddStat
  by_cases hany : (l.any fun e => e.1 = s) = true
  · simp only [hany, if_true]
    have : ((l.map fun e => if e.1 = s then (e.1, e.2 + n) else e).map Prod.fst) =
        l.map Prod.fst := by
      rw [List.map_map]
      apply List.map_congr_left
      intro e _
      by_cases he : e.1 = s <;> simp [he]
    rw [this]; exact h
  · simp only [hany, if_false]
    have hs : s ∉ l.map Prod.fst := by
      intro hmem
      rcases List.mem_map.mp hmem with ⟨e, he, hes⟩
      exact hany (List.any_eq_true.mpr ⟨e, he, by simp [hes]⟩)
    simp [List.nodup_append, h, hs]
theorem statAlloc_spec (t : ℤ) (ht : 0 ≤ t) :
    ∀ (ws : List (StatKey × ℚ)) (acc : List (StatKey × ℤ)) (a : ℤ),
      (∀ e ∈ ws, 0 ≤ e.2) → (acc.map Prod.fst).Nodup → sumVals acc = a →
      ((ws.foldl
          (fun (acc : List (StatKey × ℤ) × ℤ) e =>
            let points := ⌊(t : ℚ) * e.2⌋
            if points ≤ 0 then acc else (upsertAddStat acc.1 e.1 points, acc.2 + points))
          (acc, a)).1.map Prod.fst).Nodup ∧
      sumVals (ws.foldl
          (fun (acc : List (StatKey × ℤ) × ℤ) e =>
            let points := ⌊(t : ℚ) * e.2⌋
            if points ≤ 0 then acc else (upsertAddStat acc.1 e.1 points, acc.2 + points))
          (acc, a)).1 =
        (ws.foldl
          (fun (acc : List (StatKey × ℤ) × ℤ) e =>
            let points := ⌊(t : ℚ) * e.2⌋
            if points ≤ 0 then acc else (upsertAddStat acc.1 e.1 points, acc.2 + points))
          (acc, a)).2 ∧
      (((ws.foldl
          (fun (acc : List (StatKey × ℤ) × ℤ) e =>
            let points := ⌊(t : ℚ) * e.2⌋
            if points ≤ 0 then acc else (upsertAddStat acc.1 e.1 points, acc.2 + points))
          (acc, a)).2 : ℚ) ≤ a + t * ((ws.map fun e => e.2).sum)) := by
  intro ws
  induction ws with
  | nil =>
    intro acc a _ hn hs
    refine ⟨hn, hs, by simp⟩
  | cons w rest ih =>
    intro acc a hnn hn hs
    have hw : (0 : ℚ) ≤ w.2 := hnn w (by simp)
    have hrest : ∀ e ∈ rest, (0 : ℚ) ≤ e.2 := fun e he => hnn e (by simp [he])
    simp only [List.foldl_cons]
    by_cases hp : ⌊(t : ℚ) * w.2⌋ ≤ 0
    · simp only [hp, if_pos]
      have := ih acc a hrest hn hs
      refine ⟨this.1, this.2.1, ?_⟩
      have h2 := this.2.2
      have hprod : (0 : ℚ) ≤ t * w.2 := mul_nonneg (by exact_mod_cast ht) hw
      simp only [List.map_cons, List.sum_cons]
      nlinarith [h2]
    · simp only [hp, if_neg, if_false]
      have hn' := keysNodup_upsertAddStat acc w.1 ⌊(t : ℚ) * w.2⌋ hn
      have hs' := sumVals_upsertAddStat w.1 ⌊(t : ℚ) * w.2⌋ acc hn
      have := ih (upsertAddStat acc w.1 ⌊(t : ℚ) * w.2⌋) (a + ⌊(t : ℚ) * w.2⌋)
        hrest hn' (by rw [hs', hs])
      refine ⟨this.1, this.2.1, ?_⟩
      have h2 := this.2.2
      have hfl : ((⌊(t : ℚ) * w.2⌋ : ℤ) : ℚ) ≤ (t : ℚ) * w.2 := Int.floor_le _
      simp only [List.map_cons, List.sum_cons]
      push_cast at h2 ⊢
      nlinarith [h2, hfl]

theorem normalize_nonneg (ws : List (StatKey × ℚ)) :
    ∀ e ∈ normalizeStatWeights ws, (0 : ℚ) ≤ e.2 := by
  intro e he
  unfold normalizeStatWeights at he
  by_cases htot : ((ws.filter fun e => 0 < e.2).map fun e => e.2).sum ≤ 0
  · simp [htot] at he
  · simp only [htot, if_false, if_neg] at he
    rcases List.mem_map.mp he with ⟨x, hx, hxe⟩
    have hxpos : 0 < x.2 := by
      have := List.of_mem_filter hx
      simpa using this
    have htot' : 0 < ((ws.filter fun e => 0 < e.2).map fun e => e.2).sum := by linarith
    rw [← hxe]
    exact le_of_lt (div_pos hxpos htot')

theorem list_sum_map_div {α : Type} (l : List α) (f : α → ℚ) (b : ℚ) :
    (l.map fun x => f x / b).sum = (l.map f).sum / b := by
  induction l with
  | nil => simp
  | cons a t ih => simp [ih, add_div]

theorem normalize_sum_eq_one (ws : List (StatKey × ℚ))
    (h : normalizeStatWeights ws ≠ []) :
    ((normalizeStatWeights ws).map fun e => e.2).sum = 1 := by
  unfold normalizeStatWeights at h ⊢
  by_cases htot : ((ws.filter fun e => 0 < e.2).map fun e => e.2).sum ≤ 0
  · simp [htot] at h
  · simp only [htot, if_false, if_neg] at h ⊢
    rw [List.map_map]
    have hmap : ((ws.filter fun e => 0 < e.2).map
        ((fun e => e.2) ∘ fun e => (e.1, e.2 / ((ws.filter fun e => 0 < e.2).map
          fun e => e.2).sum))) =
        (ws.filter fun e => 0 < e.2).map fun e =>
          (fun x => x.2) e / ((ws.filter fun e => 0 < e.2).map fun e => e.2).sum := by
      apply List.map_congr_left
      intro e _
      rfl
    rw [hmap, list_sum_map_div]
    have htot' : ((ws.filter fun e => 0 < e.2).map fun e => e.2).sum ≠ 0 := by
      intro h0; rw [h0] at htot; exact htot le_rfl
    exact div_self htot'

theorem calculateTaskStatGain_sum (xpGain : ℚ) (priority : Priority)
    (category : Option Category) (levelUps : ℤ) :
    sumVals (calculateTaskStatGain xpGain priority category levelUps) =
      max 1 (min 4 (jround (xpGain / 36 * priorityMultiplier priority))) +
        max 0 (min 2 levelUps) := by
  simp only [calculateTaskStatGain]
  set basePoints := max 1 (min 4 (jround (xpGain / 36 * priorityMultiplier priority)))
    with hbp
  set levelBonus := max 0 (min 2 levelUps) with hlb
  set t := basePoints + levelBonus with htdef
  have ht : 0 ≤ t := by
    have hb1 : 1 ≤ basePoints := le_max_left _ _
    have hl0 : 0 ≤ levelBonus := le_max_left _ _
    omega
  set weights := normalizeStatWeights ((category.map fun c => c.statWeights).getD [])
    with hwdef
  by_cases hempty : weights = []
  · simp [hempty, sumVals]
  · simp only [hempty, if_neg, if_false]
    have hspec := statAlloc_spec t ht weights [] 0 (normalize_nonneg _) (by simp)
      (by simp [sumVals])
    set alloc := weights.foldl
      (fun (acc : List (StatKey × ℤ) × ℤ) e =>
        let points := ⌊(t : ℚ) * e.2⌋
        if points ≤ 0 then acc else (upsertAddStat acc.1 e.1 points, acc.2 + points))
      ([], 0) with halloc
    have hsum1 : ((weights.map fun e => e.2).sum : ℚ) = 1 := normalize_sum_eq_one _ hempty
    have hle : (alloc.2 : ℚ) ≤ (t : ℚ) := by
      have hq := hspec.2.2
      rw [hsum1] at hq
      simpa using hq
    have hleZ : alloc.2 ≤ t := by exact_mod_cast hle
    by_cases hrem : 0 < t - alloc.2
    · simp only [hrem, if_pos]
      rw [sumVals_upsertAddStat _ _ _ hspec.1, hspec.2.1]
      ring
    · simp only [hrem, if_neg, if_false]
      have : alloc.2 = t := by omega
      rw [hspec.2.1, this]

/-- C10.  The per-stat gains of `calculateTaskStatGain` sum exactly to
`basePoints + levelBonus`, where `basePoints =
clamp(round(xpGain/36 * priorityMultiplier), 1, 4)` and `levelBonus =
clamp(levelUps, 0, 2)`; hence the total distributed points lie in
`[1, 6]` (no points are lost to the floor-based allocation: the remainder
goes to the highest-weighted stat, or everything to `discipline` when the
category has no usable weights). -/
theorem claim10_stat_gain_total (xpGain : ℚ) (priority : Priority)
    (category : Option Category) (levelUps : ℤ) :
    sumVals (calculateTaskStatGain xpGain priority category levelUps) =
      max 1 (min 4 (jround (xpGain / 36 * priorityMultiplier priority))) +
        max 0 (min 2 levelUps) ∧
    1 ≤ sumVals (calculateTaskStatGain xpGain priority category levelUps) ∧
    sumVals (calculateTaskStatGain xpGain priority category levelUps) ≤ 6 := by
  have hsum := calculateTaskStatGain_sum xpGain priority category levelUps
  refine ⟨hsum, ?_, ?_⟩ <;> rw [hsum] <;> omega

theorem insertDesc_perm (key : α → ℤ) (a : α) :
    ∀ (l : List α), (insertDesc key a l).Perm (a :: l) := by
  intro l
  induction l with
  | nil => simp [insertDesc]
  | cons b t ih =>
    by_cases h : key a ≤ key b
    · simp only [insertDesc, h, if_pos]
      exact (ih.cons b).trans (List.Perm.swap a b t)
    · simp [insertDesc, h]

theorem sortDescGo_perm (key : α → ℤ) :
    ∀ (xs acc : List α),
      (xs.foldl (fun acc a => insertDesc key a acc) acc).Perm (acc ++ xs) := by
  intro xs
  induction xs with
  | nil => simp
  | cons a t ih =>
    intro acc
    simp only [List.foldl_cons]
    refine (ih (insertDesc key a acc)).trans ?_
    have h1 : (insertDesc key a acc ++ t).Perm ((a :: acc) ++ t) :=
      (insertDesc_perm key a acc).append_right t
    refine h1.trans ?_
    exact List.perm_middle.symm

theorem sortDesc_perm (key : α → ℤ) (xs : List α) : (sortDesc key xs).Perm xs := by
  simpa using sortDescGo_perm key xs []

theorem upsertAddString_nonneg (l : List (String × ℤ)) (s : String) (n : ℤ)
    (hl : ∀ e ∈ l, 0 ≤ e.2) (hn : 0 ≤ n) :
    ∀ e ∈ upsertAddString l s n, 0 ≤ e.2 := by
  intro e he
  unfold upsertAddString at he
  by_cases hany : (l.any fun x => x.1 = s) = true
  · simp only [hany, if_true] at he
    rcases List.mem_map.mp he with ⟨x, hx, hxe⟩
    by_cases hxs : x.1 = s
    · simp only [hxs, if_pos] at hxe
      have := hl x hx
      rw [← hxe]
      simpa using by omega
    · simp only [hxs, if_neg, if_false] at hxe
      exact hxe ▸ hl x hx
  · simp only [hany, if_false] at he
    rcases List.mem_append.mp he with hx | hx
    · exact hl e hx
    · have : e = (s, n) := by simpa using hx
      rw [this]
      exact hn

theorem innerMerge_nonneg :
    ∀ (es : List (String × ℤ)) (acc : List (String × ℤ)),
      (∀ e ∈ acc, 0 ≤ e.2) → (∀ e ∈ es, 0 ≤ e.2) →
      ∀ e ∈ es.foldl (fun m e => upsertAddString m e.1 e.2) acc, 0 ≤ e.2 := by
  intro es
  induction es with
  | nil => intro acc hacc _; simpa using hacc
  | cons x t ih =>
    intro acc hacc hes
    simp only [List.foldl_cons]
    exact ih (upsertAddString acc x.1 x.2)
      (upsertAddString_nonneg acc x.1 x.2 hacc (hes x (by simp)))
      (fun e he => hes e (by simp [he]))

theorem weekMerge_nonneg :
    ∀ (ds : List DailyAggregate) (acc : List (String × ℤ)),
      (∀ e ∈ acc, 0 ≤ e.2) →
      (∀ d ∈ ds, ∀ e ∈ d.categoryFocusMinutes, 0 ≤ e.2) →
      ∀ e ∈ ds.foldl
        (fun map d => d.categoryFocusMinutes.foldl
          (fun m e => upsertAddString m e.1 e.2) map) acc, 0 ≤ e.2 := by
  intro ds
  induction ds with
  | nil => intro acc hacc _; simpa using hacc
  | cons d t ih =>
    intro acc hacc hds
    simp only [List.foldl_cons]
    exact ih _ (innerMerge_nonneg d.categoryFocusMinutes acc hacc (hds d (by simp)))
      (fun d' hd' => hds d' (by simp [hd']))

theorem mem_val_le_sum (l : List (String × ℤ)) (h : ∀ e ∈ l, 0 ≤ e.2) :
    ∀ e ∈ l, e.2 ≤ (l.map fun x => x.2).sum := by
  intro e he
  induction l with
  | nil => simp at he
  | cons a t ih =>
    simp only [List.map_cons, List.sum_cons]
    rcases List.mem_cons.mp he with rfl | ht
    · have : 0 ≤ (t.map fun x => x.2).sum :=
        List.sum_nonneg fun x hx => by
          rcases List.mem_map.mp hx with ⟨y, hy, rfl⟩
          exact h y (by simp [hy])
      omega
    · have := ih (fun x hx => h x (by simp [hx])) ht
      have ha := h a (by simp)
      omega

theorem jround_nonneg (q : ℚ) (h : 0 ≤ q) : 0 ≤ jround q := by
  unfold jround
  have : (0 : ℚ) ≤ q + 1 / 2 := by linarith
  exact Int.le_floor.mpr (by exact_mod_cast this)

theorem jround_le_hundred (q : ℚ) (h : q ≤ 100) : jround q ≤ 100 := by
  unfold jround
  have h1 : q + 1 / 2 ≤ 201 / 2 := by linarith
  have h2 : (⌊q + 1 / 2⌋ : ℤ) ≤ ⌊(201 / 2 : ℚ)⌋ := Int.floor_le_floor h1
  have h3 : (⌊(201 / 2 : ℚ)⌋ : ℤ) = 100 := by norm_num
  omega

theorem jround_le_add_half (q : ℚ) : ((jround q : ℤ) : ℚ) ≤ q + 1 / 2 := Int.floor_le _

theorem sum_jround_le (T : ℤ) :
    ∀ (l : List (String × ℤ)),
      (((l.map fun e => jround ((e.2 : ℚ) / (T : ℚ) * 100)).sum : ℤ) : ℚ) ≤
        ((l.map fun e => e.2).sum : ℚ) / (T : ℚ) * 100 + (l.length : ℚ) / 2 := by
  intro l
  induction l with
  | nil => simp
  | cons a t ih =>
    simp only [List.map_cons, List.sum_cons, List.length_cons]
    have h1 := jround_le_add_half ((a.2 : ℚ) / (T : ℚ) * 100)
    push_cast
    push_cast at ih
    rw [add_div, add_mul]
    linarith

/-- The snapshot input of the percentage counterexample: one in-window
aggregate with category minutes 5, 5 and 2. -/
def c2Input : SnapshotInput :=
  { range := { rangeFrom := 0, rangeTo := 0 }, character := none, streaks := none,
    daily := [{ date := 20494, focusMinutes := 0, completions := 0, xpGained := 0,
                categoryFocusMinutes := [("a", 5), ("b", 5), ("c", 2)] }],
    events := [], quests := [] }

/-- Counterexample to C2 as stated: with week-window category minutes
5, 5 and 2 (total 12), the three rounded percentages are 42, 42 and 17,
which sum to 101 > 100. -/
theorem claim2_counterexample :
    ((buildSnapshotFromData 20494 c2Input).topCategoriesWeek.map fun e => e.percentage) =
      [42, 42, 17] ∧
    100 <
      ((buildSnapshotFromData 20494 c2Input).topCategoriesWeek.map fun e => e.percentage).sum := by
  have h : ((buildSnapshotFromData 20494 c2Input).topCategoriesWeek.map
      fun e => e.percentage) = [42, 42, 17] := by
    simp [buildSnapshotFromData, c2Input, sortDesc, insertDesc, upsertAddString]
    norm_num [jround]
  refine ⟨h, ?_⟩
  rw [h]
  norm_num

/-- C2, amended.  Under the representation invariant that stored category
focus minutes are non-negative, every `topCategoriesWeek` entry built by
`buildSnapshotFromData` has a percentage in `[0, 100]`, there are at most
3 entries, and the percentages sum to at most 101 (not 100: each of the
three entries rounds half up, as the counterexample shows). -/
theorem claim2_top_categories_bounds (today : ℤ) (input : SnapshotInput)
    (h : ∀ d ∈ input.daily, ∀ e ∈ d.categoryFocusMinutes, (0 : ℤ) ≤ e.2) :
    (buildSnapshotFromData today input).topCategoriesWeek.length ≤ 3 ∧
    (∀ e ∈ (buildSnapshotFromData today input).topCategoriesWeek,
      0 ≤ e.percentage ∧ e.percentage ≤ 100) ∧
    ((buildSnapshotFromData today input).topCategoriesWeek.map fun e => e.percentage).sum
      ≤ 101 := by
  simp only [buildSnapshotFromData]
  set merged := (input.daily.filter fun d => today - 6 ≤ d.date ∧ d.date ≤ today).foldl
    (fun map d => d.categoryFocusMinutes.foldl (fun m e => upsertAddString m e.1 e.2) map)
    [] with hmerged_def
  set T := (merged.map fun e => e.2).sum with hT_def
  have hmerged : ∀ e ∈ merged, 0 ≤ e.2 := by
    apply weekMerge_nonneg _ _ (by simp)
    intro d hd
    exact h d (List.mem_of_mem_filter hd)
  set top := (sortDesc (fun e => e.2) merged).take 3 with htop_def
  have htopmem : ∀ e ∈ top, e ∈ merged := by
    intro e he
    have h1 : e ∈ sortDesc (fun e => e.2) merged := List.take_subset 3 _ he
    exact (sortDesc_perm (fun e => e.2) merged).mem_iff.mp h1
  have hTnonneg : 0 ≤ T := by
    rw [hT_def]
    exact List.sum_nonneg fun x hx => by
      rcases List.mem_map.mp hx with ⟨y, hy, rfl⟩
      exact hmerged y hy
  have hbounds : ∀ e ∈ top,
      0 ≤ (if T = 0 then 0 else jround ((e.2 : ℚ) / (T : ℚ) * 100)) ∧
      (if T = 0 then 0 else jround ((e.2 : ℚ) / (T : ℚ) * 100)) ≤ 100 := by
    intro e he
    by_cases hT0 : T = 0
    · simp [hT0]
    · have hTpos : 0 < T := lt_of_le_of_ne hTnonneg (Ne.symm hT0)
      have hm0 : 0 ≤ e.2 := hmerged e (htopmem e he)
      have hmT : e.2 ≤ T := hT_def ▸ mem_val_le_sum merged hmerged e (htopmem e he)
      have hq0 : (0 : ℚ) ≤ (e.2 : ℚ) / (T : ℚ) * 100 := by
        apply mul_nonneg _ (by norm_num)
        exact div_nonneg (by exact_mod_cast hm0) (by exact_mod_cast le_of_lt hTpos)
      have hq100 : (e.2 : ℚ) / (T : ℚ) * 100 ≤ 100 := by
        have hdiv : (e.2 : ℚ) / (T : ℚ) ≤ 1 := by
          rw [div_le_one (by exact_mod_cast hTpos)]
          exact Int.cast_le.mpr hmT
        nlinarith
      simp only [hT0, if_false, if_neg]
      exact ⟨jround_nonneg _ hq0, jround_le_hundred _ hq100⟩
  refine ⟨?_, ?_, ?_⟩
  · rw [List.length_map]
    exact List.length_take_le 3 (sortDesc (fun e => e.2) merged)
  · intro e he
    rcases List.mem_map.mp he with ⟨x, hx, rfl⟩
    exact hbounds x hx
  · rw [List.map_map]
    show (top.map fun e => if T = 0 then 0
        else jround ((e.2 : ℚ) / (T : ℚ) * 100)).sum ≤ 101
    by_cases hT0 : T = 0
    · have hconst : (top.map fun e => if T = 0 then 0
          else jround ((e.2 : ℚ) / (T : ℚ) * 100)) = top.map fun _ => (0 : ℤ) := by
        apply List.map_congr_left
        intro e _
        simp [hT0]
      rw [hconst]
      simp
    · have hTpos : 0 < T := lt_of_le_of_ne hTnonneg (Ne.symm hT0)
      have hS : (top.map fun e => e.2).sum ≤ T := by
        have h1 : (top.map fun e => e.2) = ((sortDesc (fun e => e.2) merged).map
            fun e => e.2).take 3 := by
          rw [htop_def, List.map_take]
        have h2 : ∀ x ∈ (sortDesc (fun e => e.2) merged).map fun e => e.2, (0 : ℤ) ≤ x := by
          intro x hx
          rcases List.mem_map.mp hx with ⟨y, hy, rfl⟩
          exact hmerged y ((sortDesc_perm (fun e => e.2) merged).mem_iff.mp hy)
        have h3 : (((sortDesc (fun e => e.2) merged).map fun e => e.2).take 3).sum ≤
            ((sortDesc (fun e => e.2) merged).map fun e => e.2).sum := by
          have := List.take_append_drop 3 ((sortDesc (fun e => e.2) merged).map fun e => e.2)
          have hd : 0 ≤ (((sortDesc (fun e => e.2) merged).map fun e => e.2).drop 3).sum :=
            List.sum_nonneg fun x hx => h2 x (List.drop_subset 3 _ hx)
          calc (((sortDesc (fun e => e.2) merged).map fun e => e.2).take 3).sum
              ≤ (((sortDesc (fun e => e.2) merged).map fun e => e.2).take 3).sum +
                (((sortDesc (fun e => e.2) merged).map fun e => e.2).drop 3).sum := by omega
            _ = ((sortDesc (fun e => e.2) merged).map fun e => e.2).sum := by
                rw [← List.sum_append, this]
        have h4 : ((sortDesc (fun e => e.2) merged).map fun e => e.2).sum =
            (merged.map fun e => e.2).sum :=
          ((sortDesc_perm (fun e => e.2) merged).map fun e => e.2).sum_eq
        rw [h1]
        calc (((sortDesc (fun e => e.2) merged).map fun e => e.2).take 3).sum
            ≤ ((sortDesc (fun e => e.2) merged).map fun e => e.2).sum := h3
          _ = T := by rw [h4, hT_def]
      have hmapif : (top.map fun e => if T = 0 then 0
          else jround ((e.2 : ℚ) / (T : ℚ) * 100)) =
          top.map fun e => jround ((e.2 : ℚ) / (T : ℚ) * 100) := by
        apply List.map_congr_left
        intro e _
        simp [hT0]
      have hlen : top.length ≤ 3 := by
        exact List.length_take_le 3 (sortDesc (fun e => e.2) merged)
      have hq := sum_jround_le T top
      have hbridge : ((top.map fun e => (e.2 : ℚ)).sum) =
          ((((top.map fun e => e.2).sum : ℤ)) : ℚ) := by
        clear hq hmapif hS
        induction top with
        | nil => simp
        | cons a t ih => simp only [List.map_cons, List.sum_cons, ih]; push_cast; ring
      have hfrac : ((top.map fun e => e.2).sum : ℚ) / (T : ℚ) * 100 ≤ 100 := by
        have hdiv : ((top.map fun e => e.2).sum : ℚ) / (T : ℚ) ≤ 1 := by
          rw [div_le_one (by exact_mod_cast hTpos)]
          rw [hbridge]
          exact Int.cast_le.mpr hS
        nlinarith
      have hsum : (((top.map fun e => jround ((e.2 : ℚ) / (T : ℚ) * 100)).sum : ℤ) : ℚ) ≤
          100 + 3 / 2 := by
        refine le_trans hq ?_
        have : ((top.length : ℚ)) / 2 ≤ 3 / 2 := by
          have : (top.length : ℚ) ≤ 3 := by exact_mod_cast hlen
          linarith
        linarith
      have hZ : ((top.map fun e => jround ((e.2 : ℚ) / (T : ℚ) * 100)).sum : ℤ) < 102 := by
        by_contra hcon
        push_neg at hcon
        have : ((102 : ℤ) : ℚ) ≤
            (((top.map fun e => jround ((e.2 : ℚ) / (T : ℚ) * 100)).sum : ℤ) : ℚ) := by
          exact_mod_cast hcon
        linarith
      rw [hmapif]
      omega

/-- Witness for C2 at a concrete input. -/
theorem claim2_witness :
    (∀ d ∈ c2Input.daily, ∀ e ∈ d.categoryFocusMinutes, (0 : ℤ) ≤ e.2) ∧
    ((buildSnapshotFromData 20494 c2Input).topCategoriesWeek.length ≤ 3 ∧
      (∀ e ∈ (buildSnapshotFromData 20494 c2Input).topCategoriesWeek,
        0 ≤ e.percentage ∧ e.percentage ≤ 100) ∧
      ((buildSnapshotFromData 20494 c2Input).topCategoriesWeek.map
        fun e => e.percentage).sum ≤ 101) :=
  ⟨by decide, claim2_top_categories_bounds 20494 c2Input (by decide)⟩

theorem insertDesc_map {α β : Type} (key : β → ℤ) (g : α → β) (a : α) :
    ∀ (l : List α), insertDesc key (g a) (l.map g) = (insertDesc (key ∘ g) a l).map g := by
  intro l
  induction l with
  | nil => simp [insertDesc]
  | cons b t ih =>
    simp only [List.map_cons, insertDesc, Function.comp]
    by_cases h : key (g a) ≤ key (g b)
    · simp [h, ih]
    · simp [h]

theorem sortDescGo_map {α β : Type} (key : β → ℤ) (g : α → β) :
    ∀ (xs acc : List α),
      (xs.map g).foldl (fun acc a => insertDesc key a acc) (acc.map g) =
        (xs.foldl (fun acc a => insertDesc (key ∘ g) a acc) acc).map g := by
  intro xs
  induction xs with
  | nil => simp
  | cons a t ih =>
    intro acc
    simp only [List.map_cons, List.foldl_cons]
    rw [insertDesc_map key g a acc]
    exact ih (insertDesc (key ∘ g) a acc)

theorem sortDesc_map {α β : Type} (key : β → ℤ) (g : α → β) (xs : List α) :
    sortDesc key (xs.map g) = (sortDesc (key ∘ g) xs).map g := by
  unfold sortDesc
  simpa using sortDescGo_map key g xs []

/-- Payload replacement that keeps everything else of an event. -/
def withPayload (f : AppEvent → Payload) (e : AppEvent) : AppEvent :=
  { e with payload := f e }

theorem lastBadgeEvent_map (range : SnapshotRange) (events : List AppEvent)
    (f : AppEvent → Payload) :
    lastBadgeEvent range (events.map (withPayload f)) =
      (lastBadgeEvent range events).map (withPayload f) := by
  unfold lastBadgeEvent
  rw [show (List.filter
        (fun e => decide (e.eventType = EventType.badgeUnlocked ∧
          isInRange e.occurredAt range = true))
        (events.map (withPayload f))) =
      (events.filter
        ((fun e => decide (e.eventType = EventType.badgeUnlocked ∧
          isInRange e.occurredAt range = true)) ∘ withPayload f)).map (withPayload f)
    from List.filter_map (withPayload f) events]
  rw [show ((fun e => decide (e.eventType = EventType.badgeUnlocked ∧
      isInRange e.occurredAt range = true)) ∘ withPayload f) =
      (fun e => decide (e.eventType = EventType.badgeUnlocked ∧
        isInRange e.occurredAt range = true)) from rfl]
  rw [sortDesc_map (fun e => e.occurredAt) (withPayload f)]
  rw [show ((fun e : AppEvent => e.occurredAt) ∘ withPayload f) =
      (fun e : AppEvent => e.occurredAt) from rfl]
  exact List.head?_map _ _

theorem lastBadgeEvent_mem (range : SnapshotRange) (events : List AppEvent)
    (e : AppEvent) (h : lastBadgeEvent range events = some e) :
    e ∈ events ∧ e.eventType = EventType.badgeUnlocked ∧
      isInRange e.occurredAt range = true := by
  unfold lastBadgeEvent at h
  have hmem : e ∈ sortDesc (fun e : AppEvent => e.occurredAt)
      (events.filter fun e =>
        e.eventType = EventType.badgeUnlocked ∧ isInRange e.occurredAt range) :=
    List.mem_of_mem_head? h
  have hmem2 : e ∈ events.filter fun e =>
      e.eventType = EventType.badgeUnlocked ∧ isInRange e.occurredAt range :=
    (sortDesc_perm _ _).mem_iff.mp hmem
  have hmem3 : e ∈ events := List.mem_of_mem_filter hmem2
  have hprops := List.of_mem_filter hmem2
  have hp := of_decide_eq_true hprops
  exact ⟨hmem3, hp.1, hp.2⟩

/-- C1, amended.  The snapshot depends on event payloads only through the
`achievementId` field of the selected (most recent in-range)
`BadgeUnlocked` event: replacing every event's payload by anything with
the same `achievementId` field leaves the whole snapshot unchanged
(every other payload field is discarded), and whatever string
`lastBadgeUnlocked` carries is the `achievementId` payload field of some
in-range `BadgeUnlocked` input event.  (The unconditional "no payload
substring occurs in the snapshot" reading fails when a title/notes value
also occurs in the copied `achievementId` itself — see the
counterexample.) -/
theorem claim1_snapshot_payload_flow (today : ℤ) (input : SnapshotInput)
    (f : AppEvent → Payload)
    (hf : ∀ e ∈ input.events, getAchievementId (f e) = getAchievementId e.payload) :
    buildSnapshotFromData today { input with events := input.events.map (withPayload f) } =
      buildSnapshotFromData today input ∧
    (∀ s : String, (buildSnapshotFromData today input).lastBadgeUnlocked = some s →
      ∃ e, e ∈ input.events ∧ e.eventType = EventType.badgeUnlocked ∧
        isInRange e.occurredAt input.range = true ∧ getAchievementId e.payload = some s) := by
  have hbadge :
      ((lastBadgeEvent input.range (input.events.map (withPayload f))).bind
        fun e => getAchievementId e.payload) =
      ((lastBadgeEvent input.range input.events).bind
        fun e => getAchievementId e.payload) := by
    rw [lastBadgeEvent_map]
    rcases hh : lastBadgeEvent input.range input.events with _ | e
    · rfl
    · have hmem := (lastBadgeEvent_mem _ _ _ hh).1
      simp only [Option.map_some', Option.some_bind]
      exact hf e hmem
  constructor
  · simp only [buildSnapshotFromData]
    simp only [SocialSnapshot.mk.injEq]
    simp only [and_true, true_and]
    exact hbadge
  · intro s hs
    simp only [buildSnapshotFromData] at hs
    rcases hh : lastBadgeEvent input.range input.events with _ | e
    · rw [hh] at hs
      simp at hs
    · rw [hh] at hs
      simp only [Option.some_bind] at hs
      have hmem := lastBadgeEvent_mem _ _ _ hh
      exact ⟨e, hmem.1, hmem.2.1, hmem.2.2, hs⟩

/-- A `BadgeUnlocked` event whose payload carries a raw task title that
coincides with its `achievementId`. -/
def c1Event : AppEvent :=
  { eventId := "1", schemaVersion := 1, eventType := EventType.badgeUnlocked,
    occurredAt := 5, userId := "u1",
    payload := [("achievementId", PValue.str "should-not-be-exported"),
                ("rawTaskTitle", PValue.str "should-not-be-exported")] }

/-- The snapshot input of the C1 counterexample. -/
def c1Input : SnapshotInput :=
  { range := { rangeFrom := 0, rangeTo := 10 }, character := none, streaks := none,
    daily := [], events := [c1Event], quests := [] }

/-- Counterexample to C1 as stated: when a payload's `rawTaskTitle` value
also occurs as the `achievementId`, the snapshot does contain a string
equal to that raw task title value (through `lastBadgeUnlocked`), so the
universally quantified "no substring equal to any raw task title" claim
fails; only the flow property of the amended claim holds. -/
theorem claim1_counterexample :
    (("rawTaskTitle", PValue.str "should-not-be-exported") ∈ c1Event.payload ∧
      c1Event ∈ c1Input.events) ∧
    (buildSnapshotFromData 20494 c1Input).lastBadgeUnlocked =
      some "should-not-be-exported" := by
  constructor
  · decide
  · decide

/-- The payload scrub of the C1 witness: replace every payload by one
carrying only the (unchanged) `achievementId` field. -/
def c1Scrub : AppEvent → Payload :=
  fun _ => [("achievementId", PValue.str "should-not-be-exported")]

/-- Witness for C1 at a concrete input. -/
theorem claim1_witness :
    (∀ e ∈ c1Input.events,
      getAchievementId (c1Scrub e) = getAchievementId e.payload) ∧
    (buildSnapshotFromData 20494
        { c1Input with events := c1Input.events.map (withPayload c1Scrub) } =
      buildSnapshotFromData 20494 c1Input ∧
    (∀ s : String,
      (buildSnapshotFromData 20494 c1Input).lastBadgeUnlocked = some s →
      ∃ e, e ∈ c1Input.events ∧ e.eventType = EventType.badgeUnlocked ∧
        isInRange e.occurredAt c1Input.range = true ∧
        getAchievementId e.payload = some s)) :=
  ⟨by decide, claim1_snapshot_payload_flow 20494 c1Input c1Scrub (by decide)⟩

theorem mem_putByKey {α β : Type} [DecidableEq β] (k : α → β) (l : List α) (a x : α)
    (h : x ∈ putByKey k l a) : x = a ∨ (x ∈ l ∧ k x ≠ k a) := by
  unfold putByKey at h
  by_cases hany : (l.any fun y => k y = k a) = true
  · simp only [hany, if_true] at h
    rcases List.mem_map.mp h with ⟨y, hy, hyx⟩
    by_cases hk : k y = k a
    · left
      rw [← hyx, if_pos hk]
    · right
      rw [← hyx, if_neg hk]
      exact ⟨hy, hk⟩
  · simp only [hany, if_false] at h
    rcases List.mem_append.mp h with hx | hx
    · right
      refine ⟨hx, fun hk => ?_⟩
      exact hany (List.any_eq_true.mpr ⟨x, hx, by simp [hk]⟩)
    · left
      simpa using hx

theorem mem_foldl_putByKey {α β : Type} [DecidableEq β] (k : α → β) :
    ∀ (us init : List α) (x : α), x ∈ us.foldl (putByKey k) init →
      x ∈ us ∨ (x ∈ init ∧ ∀ u ∈ us, k u ≠ k x) := by
  intro us
  induction us with
  | nil =>
    intro init x h
    right
    exact ⟨by simpa using h, by simp⟩
  | cons u rest ih =>
    intro init x h
    simp only [List.foldl_cons] at h
    rcases ih (putByKey k init u) x h with hx | ⟨hx, hrest⟩
    · left; exact List.mem_cons_of_mem u hx
    · rcases mem_putByKey k init u x hx with rfl | ⟨hx2, hk⟩
      · left; exact List.mem_cons_self _ _
      · right
        refine ⟨hx2, fun v hv => ?_⟩
        rcases List.mem_cons.mp hv with rfl | hv2
        · exact fun hc => hk hc.symm
        · exact hrest v hv2

theorem questFix_idem (m1 m2 : ℤ) (m3 : String → ℤ) (m4 : ℤ) (q : Quest) :
    questFix m1 m2 m3 m4 (questFix m1 m2 m3 m4 q) = questFix m1 m2 m3 m4 q := rfl

theorem questStep_fix_eq_none (m1 m2 : ℤ) (m3 : String → ℤ) (m4 : ℤ) (q : Quest) :
    questStep m1 m2 m3 m4 (questFix m1 m2 m3 m4 q) = none := by
  unfold questStep
  rw [questFix_idem]
  simp

theorem questStep_some (m1 m2 : ℤ) (m3 : String → ℤ) (m4 : ℤ) (q u : Quest)
    (h : questStep m1 m2 m3 m4 q = some u) : u = questFix m1 m2 m3 m4 q := by
  unfold questStep at h
  by_cases hc : (questFix m1 m2 m3 m4 q).progress ≠ q.progress ∨
      (questFix m1 m2 m3 m4 q).status ≠ q.status
  · simp only [hc, if_true] at h
    exact (Option.some_inj.mp h).symm
  · simp only [hc, if_false] at h
    exact absurd h (by simp)

theorem questFix_id_eq (m1 m2 : ℤ) (m3 : String → ℤ) (m4 : ℤ) (q : Quest) :
    (questFix m1 m2 m3 m4 q).id = q.id := rfl

/-- Core of the quest half of C8: after one sync pass, every quest in
the table is a fixed point, so a second pass writes nothing. -/
theorem questSync_second_none (m1 m2 : ℤ) (m3 : String → ℤ) (m4 : ℤ)
    (quests : List Quest) :
    ((quests.filterMap (questStep m1 m2 m3 m4)).foldl (putByKey fun q => q.id)
        quests).filterMap (questStep m1 m2 m3 m4) = [] := by
  rw [List.filterMap_eq_nil_iff]
  intro x hx
  rcases mem_foldl_putByKey (fun q : Quest => q.id) _ _ x hx with hmem | ⟨hmem, hkeys⟩
  · rcases List.mem_filterMap.mp hmem with ⟨q, _, hq⟩
    rw [questStep_some m1 m2 m3 m4 q x hq]
    exact questStep_fix_eq_none m1 m2 m3 m4 q
  · rcases hstep : questStep m1 m2 m3 m4 x with _ | u
    · rfl
    · exfalso
      have hu : u ∈ quests.filterMap (questStep m1 m2 m3 m4) :=
        List.mem_filterMap.mpr ⟨x, hmem, hstep⟩
      have : u.id = x.id := by
        rw [questStep_some m1 m2 m3 m4 x u hstep, questFix_id_eq]
      exact hkeys u hu this

theorem find?_map_put (i : String) (r : AchievementProgress) (h : r.id = i) :
    ∀ (m : List AchievementProgress),
      ((m.map fun x => if x.id = i then r else x).find? fun x => x.id = i) =
        if (m.any fun x => x.id = i) = true then some r else none := by
  intro m
  induction m with
  | nil => simp
  | cons a t ih =>
    by_cases ha : a.id = i
    · simp only [List.map_cons, if_pos ha]
      rw [List.find?_cons_of_pos _ (by simp [h])]
      simp [List.any_cons, ha]
    · simp only [List.map_cons, if_neg ha]
      rw [List.find?_cons_of_neg _ (by simpa using ha)]
      rw [ih]
      simp [List.any_cons, ha]

theorem find?_map_frame (i : String) (r : AchievementProgress) (h : i ≠ r.id) :
    ∀ (m : List AchievementProgress),
      ((m.map fun x => if x.id = r.id then r else x).find? fun x => x.id = i) =
        m.find? fun x => x.id = i := by
  intro m
  induction m with
  | nil => simp
  | cons a t ih =>
    by_cases ha : a.id = r.id
    · have hri : ¬(r.id = i) := fun hc => h hc.symm
      have hai : ¬(a.id = i) := fun hc => h (hc.symm.trans ha)
      simp only [List.map_cons, if_pos ha]
      rw [List.find?_cons_of_neg _ (by simpa using hri),
        List.find?_cons_of_neg _ (by simpa using hai)]
      exact ih
    · simp only [List.map_cons, if_neg ha]
      by_cases hai : a.id = i
      · rw [List.find?_cons_of_pos _ (by simp [hai]),
          List.find?_cons_of_pos _ (by simp [hai])]
      · rw [List.find?_cons_of_neg _ (by simpa using hai),
          List.find?_cons_of_neg _ (by simpa using hai)]
        exact ih

theorem any_reverse {α : Type} (l : List α) (p : α → Bool) :
    (l.reverse.any p) = l.any p := by
  rcases hl : l.any p with _ | _
  · rw [List.any_eq_false] at hl ⊢
    intro x hx
    exact hl x (List.mem_reverse.mp hx)
  · rw [List.any_eq_true] at hl ⊢
    rcases hl with ⟨x, hx, hp⟩
    exact ⟨x, List.mem_reverse.mpr hx, hp⟩

theorem lookupProgress_putByKey_self (l : List AchievementProgress)
    (r : AchievementProgress) :
    lookupProgress (putByKey (fun x => x.id) l r) r.id = some r := by
  unfold putByKey lookupProgress
  by_cases hany : (l.any fun y => y.id = r.id) = true
  · simp only [hany, if_true]
    rw [← List.map_reverse]
    rw [find?_map_put r.id r rfl l.reverse]
    rw [any_reverse, hany]
    rfl
  · rw [if_neg (by simp [hany])]
    rw [List.reverse_append]
    simp [List.find?_cons]

theorem lookupProgress_putByKey_frame (l : List AchievementProgress)
    (r : AchievementProgress) (i : String) (h : i ≠ r.id) :
    lookupProgress (putByKey (fun x => x.id) l r) i = lookupProgress l i := by
  unfold putByKey lookupProgress
  by_cases hany : (l.any fun y => y.id = r.id) = true
  · simp only [hany, if_true]
    rw [← List.map_reverse]
    exact find?_map_frame i r h l.reverse
  · rw [if_neg (by simp [hany])]
    rw [List.reverse_append]
    simp only [List.reverse_cons, List.reverse_nil, List.nil_append, List.cons_append,
      List.nil_append]
    rw [List.find?_cons_of_neg _ (by simpa using fun hc => h hc.symm)]

theorem lookupProgress_foldl_frame :
    ∀ (us init : List AchievementProgress) (i : String),
      (∀ u ∈ us, u.id ≠ i) →
      lookupProgress (us.foldl (putByKey fun x => x.id) init) i = lookupProgress init i := by
  intro us
  induction us with
  | nil => intro init i _; rfl
  | cons u rest ih =>
    intro init i hne
    simp only [List.foldl_cons]
    rw [ih (putByKey (fun x => x.id) init u) i fun v hv => hne v (by simp [hv])]
    exact lookupProgress_putByKey_frame init u i fun hc => hne u (by simp) hc.symm

theorem lookupProgress_foldl_mem :
    ∀ (us init : List AchievementProgress) (r : AchievementProgress),
      (us.map fun x => x.id).Nodup → r ∈ us →
      lookupProgress (us.foldl (putByKey fun x => x.id) init) r.id = some r := by
  intro us
  induction us with
  | nil => intro init r _ hr; simp at hr
  | cons u rest ih =>
    intro init r hnodup hr
    simp only [List.foldl_cons]
    rcases List.mem_cons.mp hr with rfl | hr2
    · have hrest : ∀ v ∈ rest, v.id ≠ r.id := by
        intro v hv hc
        have : r.id ∉ rest.map fun x => x.id := (List.nodup_cons.mp hnodup).1
        exact this (hc ▸ List.mem_map_of_mem (fun x => x.id) hv)
      rw [lookupProgress_foldl_frame rest _ r.id hrest]
      exact lookupProgress_putByKey_self init r
    · exact ih _ r (List.nodup_cons.mp hnodup).2 hr2

theorem unlockNext_idem (p : Option ℤ) (req v now1 now2 : ℤ) :
    unlockNext (unlockNext p req v now1) req v now2 = unlockNext p req v now1 := by
  rcases p with _ | t
  · unfold unlockNext
    by_cases hreq : req ≤ v
    · simp [hreq]
    · simp [hreq]
  · rfl

theorem achievementRow_id (ct fm ts : ℤ) (rows : List AchievementProgress) (now : ℤ)
    (a : Achievement) : (achievementRow ct fm ts rows now a).id = a.id := rfl

theorem achievementStep_some (ct fm ts : ℤ) (rows : List AchievementProgress)
    (now : ℤ) (a : Achievement) (r : AchievementProgress)
    (h : achievementStep ct fm ts rows now a = some r) :
    r = achievementRow ct fm ts rows now a := by
  unfold achievementStep at h
  rcases hlook : lookupProgress rows a.id with _ | e
  · rw [hlook] at h
    simp only at h
    exact (Option.some_inj.mp h).symm
  · rw [hlook] at h
    simp only at h
    by_cases hc : e.value ≠ (achievementRow ct fm ts rows now a).value ∨
        e.unlockedAt ≠ (achievementRow ct fm ts rows now a).unlockedAt
    · rw [if_pos hc] at h
      exact (Option.some_inj.mp h).symm
    · rw [if_neg hc] at h
      exact absurd h (by simp)

theorem achievementStep_none (ct fm ts : ℤ) (rows : List AchievementProgress)
    (now : ℤ) (a : Achievement)
    (h : achievementStep ct fm ts rows now a = none) :
    ∃ e, lookupProgress rows a.id = some e ∧
      e.value = (achievementRow ct fm ts rows now a).value ∧
      e.unlockedAt = (achievementRow ct fm ts rows now a).unlockedAt := by
  unfold achievementStep at h
  rcases hlook : lookupProgress rows a.id with _ | e
  · rw [hlook] at h
    simp at h
  · rw [hlook] at h
    simp only at h
    by_cases hc : e.value ≠ (achievementRow ct fm ts rows now a).value ∨
        e.unlockedAt ≠ (achievementRow ct fm ts rows now a).unlockedAt
    · rw [if_pos hc] at h
      exact absurd h (by simp)
    · push_neg at hc
      exact ⟨e, rfl, hc.1, hc.2⟩

theorem achievementStep_ids_sublist (ct fm ts : ℤ) (rows : List AchievementProgress)
    (now : ℤ) :
    ∀ (as : List Achievement),
      ((as.filterMap (achievementStep ct fm ts rows now)).map fun r => r.id).Sublist
        (as.map fun a => a.id) := by
  intro as
  induction as with
  | nil => simp
  | cons a t ih =>
    simp only [List.filterMap_cons, List.map_cons]
    rcases hstep : achievementStep ct fm ts rows now a with _ | r
    · exact ih.cons a.id
    · simp only [List.map_cons]
      rw [achievementStep_some ct fm ts rows now a r hstep, achievementRow_id]
      exact ih.cons₂ a.id

theorem lookup_id_of_some (rows : List AchievementProgress) (i : String)
    (e : AchievementProgress) (h : lookupProgress rows i = some e) : e.id = i := by
  unfold lookupProgress at h
  have := List.find?_some h
  simpa using this

/-- Core of the achievement half of C8: after one sync pass (under
unique achievement ids), every achievement's progress row is a fixed
point, so a second pass writes nothing — for any second timestamp. -/
theorem achievementSync_second_none (ct fm ts : ℤ) (rows : List AchievementProgress)
    (now1 now2 : ℤ) (as : List Achievement)
    (hnodup : (as.map fun a => a.id).Nodup) :
    as.filterMap (achievementStep ct fm ts
      ((as.filterMap (achievementStep ct fm ts rows now1)).foldl
        (putByKey fun x => x.id) rows) now2) = [] := by
  set pushes := as.filterMap (achievementStep ct fm ts rows now1) with hpushes
  set rows1 := pushes.foldl (putByKey fun x => x.id) rows with hrows1
  have hpushnodup : (pushes.map fun r => r.id).Nodup :=
    (achievementStep_ids_sublist ct fm ts rows now1 as).nodup hnodup
  rw [List.filterMap_eq_nil_iff]
  intro a ha
  have hval : achievementValue ct fm ts a = achievementValue ct fm ts a := rfl
  rcases hstep : achievementStep ct fm ts rows now1 a with _ | p
  · -- no write in the first pass: the stored row was already the fixed point
    rcases achievementStep_none ct fm ts rows now1 a hstep with ⟨e, hlook, hev, heu⟩
    have heid : e.id = a.id := lookup_id_of_some rows a.id e hlook
    have hframe : ∀ u ∈ pushes, u.id ≠ a.id := by
      intro u hu hc
      rcases List.mem_filterMap.mp hu with ⟨b, hb, hbstep⟩
      have hbid : u.id = b.id := by
        rw [achievementStep_some ct fm ts rows now1 b u hbstep, achievementRow_id]
      have hab : b = a := by
        have := List.inj_on_of_nodup_map hnodup
        exact this hb ha (by rw [← hbid, hc])
      rw [hab] at hbstep
      rw [hbstep] at hstep
      exact Option.noConfusion hstep
    have hlook1 : lookupProgress rows1 a.id = some e := by
      rw [hrows1, lookupProgress_foldl_frame pushes rows a.id hframe]
      exact hlook
    unfold achievementStep
    rw [hlook1]
    simp only
    rw [if_neg]
    push_neg
    unfold achievementRow at hev heu ⊢
    simp only at hev heu ⊢
    rw [hlook1]
    rw [hlook] at heu
    constructor
    · exact hev
    · simp only [Option.some_bind] at heu ⊢
      rw [heu]
      exact (unlockNext_idem _ _ _ _ _).symm
  · -- the first pass wrote the fixed point for this achievement
    have hp : p = achievementRow ct fm ts rows now1 a :=
      achievementStep_some ct fm ts rows now1 a p hstep
    have hpid : p.id = a.id := by rw [hp, achievementRow_id]
    have hpmem : p ∈ pushes := List.mem_filterMap.mpr ⟨a, ha, hstep⟩
    have hlook1 : lookupProgress rows1 a.id = some p := by
      rw [hrows1, ← hpid]
      exact lookupProgress_foldl_mem pushes rows p hpushnodup hpmem
    unfold achievementStep
    rw [hlook1]
    simp only
    rw [if_neg]
    push_neg
    unfold achievementRow at hp ⊢
    simp only at hp ⊢
    rw [hlook1]
    constructor
    · rw [hp]
    · simp only [Option.some_bind]
      rw [hp]
      simp only
      exact (unlockNext_idem _ _ _ _ _).symm

/-- C8.  Running `syncQuestProgress` and `syncAchievementProgress` a
second time immediately after a first run (no intervening mutation of
tasks, sessions, streaks, quests or achievements; any second-run
timestamp), under unique achievement catalog ids, writes no rows
(diff-before-write finds no change) and leaves the database — hence all
quest progress/status values and achievement progress/unlockedAt
values — exactly as after the first run. -/
theorem claim8_sync_idempotent (db : Db) (now1 now2 : ℤ)
    (hnodup : (db.achievements.map fun a => a.id).Nodup) :
    (syncQuestProgress (syncAchievementProgress now1 (syncQuestProgress db).2).2).1 = [] ∧
    (syncQuestProgress (syncAchievementProgress now1 (syncQuestProgress db).2).2).2 =
      (syncAchievementProgress now1 (syncQuestProgress db).2).2 ∧
    (syncAchievementProgress now2
      (syncQuestProgress (syncAchievementProgress now1 (syncQuestProgress db).2).2).2).1 =
      [] ∧
    (syncAchievementProgress now2
      (syncQuestProgress (syncAchievementProgress now1 (syncQuestProgress db).2).2).2).2 =
      (syncAchievementProgress now1 (syncQuestProgress db).2).2 := by
  have h1 : (syncQuestProgress
      (syncAchievementProgress now1 (syncQuestProgress db).2).2).1 = [] :=
    questSync_second_none _ _ _ _ db.quests
  have h2 : (syncQuestProgress
      (syncAchievementProgress now1 (syncQuestProgress db).2).2).2 =
      (syncAchievementProgress now1 (syncQuestProgress db).2).2 := by
    have heq : (syncQuestProgress
        (syncAchievementProgress now1 (syncQuestProgress db).2).2).2 =
        { (syncAchievementProgress now1 (syncQuestProgress db).2).2 with
          quests := ((syncQuestProgress
            (syncAchievementProgress now1 (syncQuestProgress db).2).2).1).foldl
            (putByKey fun q => q.id)
            ((syncAchievementProgress now1 (syncQuestProgress db).2).2).quests } := rfl
    rw [heq, h1]
    rfl
  have h3 : (syncAchievementProgress now2
      (syncQuestProgress (syncAchievementProgress now1 (syncQuestProgress db).2).2).2).1 =
      [] := by
    rw [h2]
    exact achievementSync_second_none _ _ _ db.achievementProgress now1 now2
      db.achievements hnodup
  have h4 : (syncAchievementProgress now2
      (syncQuestProgress (syncAchievementProgress now1 (syncQuestProgress db).2).2).2).2 =
      (syncAchievementProgress now1 (syncQuestProgress db).2).2 := by
    rw [h2]
    have heq : (syncAchievementProgress now2
        (syncAchievementProgress now1 (syncQuestProgress db).2).2).2 =
        { (syncAchievementProgress now1 (syncQuestProgress db).2).2 with
          achievementProgress := ((syncAchievementProgress now2
            (syncAchievementProgress now1 (syncQuestProgress db).2).2).1).foldl
            (putByKey fun r => r.id)
            ((syncAchievementProgress now1 (syncQuestProgress db).2).2).achievementProgress }
      := rfl
    rw [heq]
    have h3' : (syncAchievementProgress now2
        (syncAchievementProgress now1 (syncQuestProgress db).2).2).1 = [] := by
      exact achievementSync_second_none _ _ _ db.achievementProgress now1 now2
        db.achievements hnodup
    rw [h3']
    rfl
  exact ⟨h1, h2, h3, h4⟩

/-- A stored completed task titled "Gym", completed 72 hours before the
reference instant `c4Now`. -/
def c4StoredTask : Task :=
  { id := "t0", title := "Gym", categoryId := "health", status := TaskStatus.done,
    priority := Priority.medium, deadlineAt := none, recurrenceRule := none,
    estimateMinutes := 30, tags := [], notes := "", subtaskIds := [], subtasks := none,
    createdAt := 0, updatedAt := 0, completedAt := some (1000000000 - 259200000),
    recurrence := none, completionReward := none }

/-- The same-titled task being completed now. -/
def c4NewTask : Task :=
  { id := "t1", title := "Gym", categoryId := "health", status := TaskStatus.todo,
    priority := Priority.medium, deadlineAt := none, recurrenceRule := none,
    estimateMinutes := 30, tags := [], notes := "", subtaskIds := [], subtasks := none,
    createdAt := 0, updatedAt := 0, completedAt := none, recurrence := none,
    completionReward := none }

/-- The completion instant of the C4/C5 failing inputs (epoch ms). -/
def c4Now : ℤ := 1000000000

/-- The database of the C4 failing input. -/
def c4Db : Db :=
  { profile := some "u1", tasks := [c4StoredTask], categories := [], quests := [],
    achievements := [], achievementProgress := [], focusSessions := [],
    character := some baseCharacter, streak := none, analyticsDaily := [],
    eventLog := [] }

/-- Modelled from the spec: the `repeatedTitleCount24h` the spec
describes — "count of same-title completions in the trailing 24h" — i.e.
stored same-title tasks whose completion timestamp lies within the 24
hours before the completion instant. -/
def specRepeatedTitleCount24h (db : Db) (task : Task) (now : ℤ) : ℤ :=
  (db.tasks.filter fun t =>
    decide (t.title = task.title) &&
      ((t.completedAt.map fun c => decide (now - 86400000 < c ∧ c ≤ now)).getD false)).length

/-- C4.  At the failing input (a same-title task completed 72 hours ago),
`recordTaskCompletion` supplies `repeatedTitleCount24h = 1` to
`calculateTaskXp` — its query counts every stored same-title task with
any completion timestamp — whereas the trailing-24-hour count the claim
(and the parameter's own name) describes is 0. -/
theorem claim4_repeated_title_count :
    (buildTaskXpInput c4Now c4Db baseCharacter c4NewTask).repeatedTitleCount24h = 1 ∧
    specRepeatedTitleCount24h c4Db c4NewTask c4Now = 0 := by
  constructor
  · decide
  · decide

/-- A task with two subtasks, neither marked done. -/
def c5Task : Task :=
  { id := "t2", title := "Plan", categoryId := "learning", status := TaskStatus.todo,
    priority := Priority.medium, deadlineAt := none, recurrenceRule := none,
    estimateMinutes := 30, tags := [], notes := "", subtaskIds := ["s1", "s2"],
    subtasks := some [{ id := "s1", title := "a", done := false },
                      { id := "s2", title := "b", done := false }],
    createdAt := 0, updatedAt := 0, completedAt := none, recurrence := none,
    completionReward := none }

/-- The database of the C5 failing input. -/
def c5Db : Db :=
  { profile := some "u1", tasks := [c5Task], categories := [], quests := [],
    achievements := [], achievementProgress := [], focusSessions := [],
    character := some baseCharacter, streak := none, analyticsDaily := [],
    eventLog := [] }

/-- Modelled from the spec: the `completedSubtasks` the spec describes —
"count of completed subtasks" — i.e. the number of the task's subtasks
that are marked done. -/
def specCompletedSubtasks (task : Task) : ℤ :=
  ((task.subtasks.getD []).filter fun s => s.done).length

/-- C5.  At the failing input (two subtasks, none done),
`recordTaskCompletion` supplies `completedSubtasks = 2` to
`calculateTaskXp` — it passes `task.subtaskIds.length`, the total number
of subtasks — whereas the count of done subtasks the claim (and the
parameter's own name) describes is 0. -/
theorem claim5_completed_subtasks :
    (buildTaskXpInput c4Now c5Db baseCharacter c5Task).completedSubtasks = 2 ∧
    specCompletedSubtasks c5Task = 0 := by
  constructor
  · decide
  · decide

/-- The quest of the C8 witness database. -/
def c8Quest : Quest :=
  { id := "q1", kind := QuestKind.daily, title := "Do 3",
    objectiveType := ObjectiveType.taskCompletions, objectiveCategoryId := none,
    target := 3, progress := 0, reward := { xp := 10 }, status := QuestStatus.active }

/-- The achievement of the C8 witness database. -/
def c8Ach : Achievement :=
  { id := "a1", title := "One", requirementType := RequirementType.tasksCompleted,
    requirementValue := 1 }

/-- The database of the C8 witness. -/
def c8Db : Db :=
  { profile := some "u1", tasks := [c4StoredTask], categories := [],
    quests := [c8Quest], achievements := [c8Ach],
    achievementProgress := [], focusSessions := [], character := some baseCharacter,
    streak := none, analyticsDaily := [], eventLog := [] }

/-- Witness for C8 at a concrete database. -/
theorem claim8_witness :
    (c8Db.achievements.map fun a => a.id).Nodup ∧
    ((syncQuestProgress (syncAchievementProgress 5 (syncQuestProgress c8Db).2).2).1 = [] ∧
    (syncQuestProgress (syncAchievementProgress 5 (syncQuestProgress c8Db).2).2).2 =
      (syncAchievementProgress 5 (syncQuestProgress c8Db).2).2 ∧
    (syncAchievementProgress 9
      (syncQuestProgress (syncAchievementProgress 5 (syncQuestProgress c8Db).2).2).2).1 =
      [] ∧
    (syncAchievementProgress 9
      (syncQuestProgress (syncAchievementProgress 5 (syncQuestProgress c8Db).2).2).2).2 =
      (syncAchievementProgress 5 (syncQuestProgress c8Db).2).2) :=
  ⟨by simp [c8Db], claim8_sync_idempotent c8Db 5 9 (by simp [c8Db])⟩

/-- Sum of the xp thresholds of levels `L, L+1, …, L+k-1`. -/
def sumXpT (L : ℤ) : ℕ → ℤ
  | 0 => 0
  | k + 1 => sumXpT L k + xpToNext (L + k)

theorem sumXpT_succ_left (L : ℤ) :
    ∀ (k : ℕ), sumXpT L (k + 1) = xpToNext L + sumXpT (L + 1) k := by
  intro k
  induction k with
  | zero => simp [sumXpT]
  | succ n ih =>
    show sumXpT L (n + 1) + xpToNext (L + (n + 1)) =
      xpToNext L + (sumXpT (L + 1) n + xpToNext (L + 1 + n))
    rw [ih]
    have : L + ((n : ℤ) + 1) = L + 1 + n := by ring
    rw [this]
    ring

theorem xpT_le_sumXpT (L : ℤ) (hL : 1 ≤ L) :
    ∀ (k : ℕ), xpToNext L ≤ sumXpT L (k + 1) := by
  intro k
  induction k with
  | zero => simp [sumXpT]
  | succ n ih =>
    have hpos : 0 < xpToNext (L + (n + 1)) := xpToNext_pos _ (by omega)
    calc xpToNext L ≤ sumXpT L (n + 1) := ih
      _ ≤ sumXpT L (n + 1) + xpToNext (L + (n + 1)) := by omega
      _ = sumXpT L (n + 1 + 1) := rfl

theorem applyXpGo_shape (cap : ℤ) :
    ∀ (fuel : ℕ) (L z : ℤ),
      ∃ k : ℕ, applyXpGo cap fuel L z = (L + k, z - sumXpT L k) ∧
        (1 ≤ k → L < cap) := by
  intro fuel
  induction fuel with
  | zero =>
    intro L z
    exact ⟨0, by simp [applyXpGo, sumXpT], by omega⟩
  | succ n ih =>
    intro L z
    by_cases hg : xpToNext L ≤ z ∧ L < cap
    · rcases ih (L + 1) (z - xpToNext L) with ⟨k, hk, _⟩
      refine ⟨k + 1, ?_, fun _ => hg.2⟩
      simp only [applyXpGo]
      rw [if_pos hg, hk, sumXpT_succ_left]
      simp only [Prod.mk.injEq]
      constructor
      · push_cast; ring
      · ring
    · exact ⟨0, by simp [applyXpGo, hg, sumXpT], by omega⟩

theorem removeXpGo_descend (L x : ℤ) (hL : 1 ≤ L) (hx : 0 ≤ x) :
    ∀ (k : ℕ) (fuel : ℕ), k ≤ fuel → (k = 0 ∨ x < xpToNext L) →
      removeXpGo fuel (L + k) (x - sumXpT L k) = (L, x) := by
  intro k
  induction k with
  | zero =>
    intro fuel _ _
    rcases fuel with _ | f
    · simp [removeXpGo, sumXpT]
    · show removeXpGo (f + 1) (L + 0) (x - 0) = (L, x)
      unfold removeXpGo
      rw [if_neg]
      · simp
      · intro hcon
        omega
  | succ n ih =>
    intro fuel hfuel hlt
    have hxlt : x < xpToNext L := by
      rcases hlt with h | h
      · omega
      · exact h
    rcases fuel with _ | f
    · omega
    · have hsum : xpToNext L ≤ sumXpT L (n + 1) := xpT_le_sumXpT L hL n
      have hguard : x - sumXpT L (n + 1) < 0 ∧ 1 < L + ((n : ℤ) + 1) := by
        constructor
        · omega
        · omega
      show removeXpGo (f + 1) (L + ((n : ℤ) + 1)) (x - sumXpT L (n + 1)) = (L, x)
      unfold removeXpGo
      rw [if_pos hguard]
      have harg1 : L + ((n : ℤ) + 1) - 1 = L + n := by ring
      have harg2 : x - sumXpT L (n + 1) + xpToNext (L + (n : ℤ)) =
          x - sumXpT L n := by
        show x - (sumXpT L n + xpToNext (L + n)) + xpToNext (L + n) = x - sumXpT L n
        ring
      rw [harg1, harg2]
      exact ih f (by omega) (Or.inr hxlt)

/-- The numeric heart of C3: adding `g ≥ 0` xp (with level-ups) and then
removing exactly `g` restores the level and current xp exactly, given
the character invariant. -/
theorem xp_roundtrip_core (cap L x g : ℤ) (hL : 1 ≤ L) (hx : 0 ≤ x)
    (hinv : L < cap → x < xpToNext L) :
    removeXpGo (((applyXpGo cap (cap - L).toNat L (x + g)).1 - 1).toNat)
        (applyXpGo cap (cap - L).toNat L (x + g)).1
        ((applyXpGo cap (cap - L).toNat L (x + g)).2 - g) = (L, x) := by
  rcases applyXpGo_shape cap (cap - L).toNat L (x + g) with ⟨k, hk, hkcap⟩
  rw [hk]
  have harg : x + g - sumXpT L k - g = x - sumXpT L k := by ring
  simp only [harg]
  have hfuel : k ≤ ((L + (k : ℤ) - 1).toNat) := by omega
  apply removeXpGo_descend L x hL hx k _ hfuel
  rcases Nat.eq_zero_or_pos k with h0 | hpos
  · exact Or.inl h0
  · exact Or.inr (hinv (hkcap (by omega)))

theorem addStat_comm (st : StatKey → ℤ) (a b : StatKey) (da db : ℤ) :
    addStat (addStat st a da) b db = addStat (addStat st b db) a da := by
  funext k
  simp only [addStat]
  by_cases hab : a = b
  · subst hab
    by_cases hk : k = a <;> simp [hk]
    ring
  · by_cases hka : k = a <;> by_cases hkb : k = b
    case pos => exact absurd (hka.symm.trans hkb) hab
    · subst hka
      simp [hkb, hab, Ne.symm hab]
    · subst hkb
      simp [hka, hab, Ne.symm hab]
    · simp [hka, hkb]

theorem applyGains_addStat (a : StatKey) (d : ℤ) :
    ∀ (gains : List (StatKey × ℤ)) (st : StatKey → ℤ),
      applyGains (addStat st a d) gains = addStat (applyGains st gains) a d := by
  intro gains
  induction gains with
  | nil => intro st; rfl
  | cons g rest ih =>
    intro st
    show applyGains (addStat st a d) (g :: rest) = addStat (applyGains st (g :: rest)) a d
    unfold applyGains
    simp only [List.foldl_cons]
    by_cases hg : g.2 ≤ 0
    · rw [if_pos hg, if_pos hg]
      exact ih st
    · rw [if_neg hg, if_neg hg, addStat_comm]
      exact ih (addStat st g.1 g.2)

theorem applyGains_ge :
    ∀ (gains : List (StatKey × ℤ)) (st : StatKey → ℤ) (k : StatKey),
      st k ≤ applyGains st gains k := by
  intro gains
  induction gains with
  | nil => intro st k; exact le_refl _
  | cons g rest ih =>
    intro st k
    show st k ≤ applyGains st (g :: rest) k
    unfold applyGains
    simp only [List.foldl_cons]
    by_cases hg : g.2 ≤ 0
    · rw [if_pos hg]
      exact ih st k
    · rw [if_neg hg]
      refine le_trans ?_ (ih (addStat st g.1 g.2) k)
      unfold addStat
      by_cases hk : k = g.1
      · subst hk
        simp
        omega
      · simp [hk]

theorem stats_roundtrip :
    ∀ (gains : List (StatKey × ℤ)) (st : StatKey → ℤ), (∀ k, 1 ≤ st k) →
      revertGains (applyGains st gains) gains = st := by
  intro gains
  induction gains with
  | nil => intro st _; rfl
  | cons g rest ih =>
    intro st hst
    show revertGains (applyGains st (g :: rest)) (g :: rest) = st
    unfold applyGains revertGains
    simp only [List.foldl_cons]
    by_cases hg : g.2 ≤ 0
    · rw [if_pos hg, if_pos hg]
      exact ih st hst
    · rw [if_neg hg, if_neg hg]
      have h1 : List.foldl (fun acc e => if e.2 ≤ 0 then acc else addStat acc e.1 e.2)
          (addStat st g.1 g.2) rest = addStat (List.foldl
            (fun acc e => if e.2 ≤ 0 then acc else addStat acc e.1 e.2) st rest) g.1 g.2 :=
        applyGains_addStat g.1 g.2 rest st
      rw [h1]
      have h2 : ∀ (Y : StatKey → ℤ), 1 ≤ Y g.1 → subStat (addStat Y g.1 g.2) g.1 g.2 = Y := by
        intro Y hY
        funext k
        simp only [subStat, addStat]
        by_cases hk : k = g.1
        · simp [hk]
          omega
        · simp [hk]
      have hY : 1 ≤ (List.foldl
          (fun acc e => if e.2 ≤ 0 then acc else addStat acc e.1 e.2) st rest) g.1 :=
        le_trans (hst g.1) (applyGains_ge rest st g.1)
      rw [h2 _ hY]
      exact ih st hst

/-- Lookup of a day's aggregate row (`db.analyticsDaily.get(date)`). -/
def aggAt (rows : List DailyAggregate) (d : ℤ) : Option DailyAggregate :=
  rows.find? fun r => r.date = d

/-- A day's `completions` counter, `0` when the row is absent. -/
def aggCompletions (rows : List DailyAggregate) (d : ℤ) : ℤ :=
  ((aggAt rows d).map fun r => r.completions).getD 0

/-- A day's `xpGained` counter, `0` when the row is absent. -/
def aggXp (rows : List DailyAggregate) (d : ℤ) : ℤ :=
  ((aggAt rows d).map fun r => r.xpGained).getD 0

theorem find?_map_replace {α β : Type} [DecidableEq β] (k : α → β) (d : β) (a : α)
    (ha : k a = d) :
    ∀ l : List α,
      ((l.map fun x => if k x = d then a else x).find? fun x => decide (k x = d)) =
        if (l.any fun x => decide (k x = d)) = true then some a else none := by
  intro l
  induction l with
  | nil => simp
  | cons x t ih =>
    by_cases hx : k x = d
    · simp only [List.map_cons, if_pos hx]
      rw [List.find?_cons_of_pos _ (by simp [ha])]
      simp [List.any_cons, hx]
    · simp only [List.map_cons, if_neg hx]
      rw [List.find?_cons_of_neg _ (by simpa using hx)]
      rw [ih]
      simp [List.any_cons, hx]

theorem find?_putByKey_self {α β : Type} [DecidableEq β] (k : α → β) (l : List α) (a : α)
    (d : β) (ha : k a = d) :
    ((putByKey k l a).find? fun x => decide (k x = d)) = some a := by
  unfold putByKey
  rw [ha]
  by_cases hany : (l.any fun x => decide (k x = d)) = true
  · rw [if_pos hany, find?_map_replace k d a ha l, if_pos hany]
  · rw [if_neg hany, List.find?_append]
    have hnone : (l.find? fun x => decide (k x = d)) = none :=
      List.find?_eq_none.mpr fun x hx hpx => hany (List.any_eq_true.mpr ⟨x, hx, hpx⟩)
    rw [hnone]
    simp [List.find?_cons_of_pos, ha]

theorem find?_putByKey_task (l : List Task) (a : Task) (i : String) (ha : a.id = i) :
    ((putByKey (fun t => t.id) l a).find? fun t => t.id = i) = some a :=
  find?_putByKey_self (fun t => t.id) l a i ha

theorem find?_putByKey_agg (l : List DailyAggregate) (a : DailyAggregate) (d : ℤ)
    (ha : a.date = d) :
    ((putByKey (fun r => r.date) l a).find? fun r => r.date = d) = some a :=
  find?_putByKey_self (fun r => r.date) l a d ha

theorem aggAt_upsert (occ f cc xx : ℤ) (db : Db) :
    ∃ e : DailyAggregate,
      aggAt (upsertDailyAggregate occ f cc xx none 0 db).analyticsDaily (msToDay occ)
          = some e ∧
        e.completions = aggCompletions db.analyticsDaily (msToDay occ) + cc ∧
        e.xpGained = aggXp db.analyticsDaily (msToDay occ) + xx := by
  simp only [upsertDailyAggregate, aggAt, aggCompletions, aggXp]
  cases hE : db.analyticsDaily.find? fun r => r.date = msToDay occ with
  | none =>
    refine ⟨_, find?_putByKey_agg _ _ _ rfl, by simp, by simp⟩
  | some e0 =>
    have hdate : e0.date = msToDay occ := by
      have h := List.find?_some hE
      simpa using h
    refine ⟨_, find?_putByKey_agg _ _ _ (by simpa using hdate), by simp, by simp⟩

theorem aggCompletions_upsert (occ f cc xx : ℤ) (db : Db) :
    aggCompletions (upsertDailyAggregate occ f cc xx none 0 db).analyticsDaily (msToDay occ)
      = aggCompletions db.analyticsDaily (msToDay occ) + cc := by
  obtain ⟨e, h1, h2, h3⟩ := aggAt_upsert occ f cc xx db
  simp [aggCompletions, h1, h2]

theorem aggXp_upsert (occ f cc xx : ℤ) (db : Db) :
    aggXp (upsertDailyAggregate occ f cc xx none 0 db).analyticsDaily (msToDay occ)
      = aggXp db.analyticsDaily (msToDay occ) + xx := by
  obtain ⟨e, h1, h2, h3⟩ := aggAt_upsert occ f cc xx db
  simp [aggXp, h1, h3]

theorem upsert_analytics_only (occ f cc xx : ℤ) (db db' : Db)
    (h : db.analyticsDaily = db'.analyticsDaily) :
    (upsertDailyAggregate occ f cc xx none 0 db).analyticsDaily
      = (upsertDailyAggregate occ f cc xx none 0 db').analyticsDaily := by
  simp only [upsertDailyAggregate, h]

theorem upsert_character (occ f cc xx : ℤ) (cid : Option String) (cfm : ℤ) (db : Db) :
    (upsertDailyAggregate occ f cc xx cid cfm db).character = db.character := rfl

theorem upsert_profile (occ f cc xx : ℤ) (cid : Option String) (cfm : ℤ) (db : Db) :
    (upsertDailyAggregate occ f cc xx cid cfm db).profile = db.profile := rfl

theorem syncQuest_character (db : Db) : (syncQuestProgress db).2.character = db.character :=
  rfl

theorem syncQuest_analytics (db : Db) :
    (syncQuestProgress db).2.analyticsDaily = db.analyticsDaily := rfl

theorem syncQuest_profile (db : Db) : (syncQuestProgress db).2.profile = db.profile := rfl

theorem syncQuest_tasks (db : Db) : (syncQuestProgress db).2.tasks = db.tasks := rfl

theorem syncAch_character (now : ℤ) (db : Db) :
    (syncAchievementProgress now db).2.character = db.character := rfl

theorem syncAch_analytics (now : ℤ) (db : Db) :
    (syncAchievementProgress now db).2.analyticsDaily = db.analyticsDaily := rfl

theorem syncAch_profile (now : ℤ) (db : Db) :
    (syncAchievementProgress now db).2.profile = db.profile := rfl

theorem syncAch_tasks (now : ℤ) (db : Db) :
    (syncAchievementProgress now db).2.tasks = db.tasks := rfl

theorem char_roundtrip (c : CharacterState) (xp : ℤ) (gains : List (StatKey × ℤ))
    (hxp1 : 1 ≤ xp) (hL : 1 ≤ c.level) (hx : 0 ≤ c.xpCurrent) (hinv : charInv c)
    (hstats : ∀ k, 1 ≤ c.stats k) :
    (revertStatGains (removeXp (applyStatGains (applyXp c xp) gains) xp) gains).level
        = c.level ∧
      (revertStatGains (removeXp (applyStatGains (applyXp c xp) gains) xp) gains).xpCurrent
        = c.xpCurrent ∧
      (revertStatGains (removeXp (applyStatGains (applyXp c xp) gains) xp) gains).stats
        = c.stats := by
  have hmax : max 0 xp = xp := by omega
  have hrt := xp_roundtrip_core c.seasonCap c.level c.xpCurrent xp hL hx hinv
  simp only [applyStatGains, applyXp, removeXp, revertStatGains, hmax]
  rw [hrt]
  refine ⟨rfl, ?_, stats_roundtrip gains c.stats hstats⟩
  simp only []
  rw [if_neg (by omega : ¬ c.xpCurrent < 0)]

/-- The `updated` task that `completeTask` passes to
`recordTaskCompletion`. -/
def taskAfterComplete (now : ℤ) (t : Task) : Task :=
  { t with status := TaskStatus.done, completedAt := some now, updatedAt := now }

/-- The XP awarded when `completeTask` completes `t` against `db`. -/
def xpOfComplete (xpOf : TaskXpInput → ℤ) (now : ℤ) (db : Db) (c : CharacterState)
    (t : Task) : ℤ :=
  xpOf (buildTaskXpInput now db c (taskAfterComplete now t))

/-- The stat gains computed inside `recordTaskCompletion` for this
completion. -/
def gainsOfComplete (xpOf : TaskXpInput → ℤ) (now : ℤ) (db : Db) (c : CharacterState)
    (t : Task) : List (StatKey × ℤ) :=
  calculateTaskStatGain ((xpOfComplete xpOf now db c t : ℤ) : ℚ)
    (taskAfterComplete now t).priority
    (db.categories.find? fun cc => cc.id = (taskAfterComplete now t).categoryId)
    (max 0 ((applyXp c (xpOfComplete xpOf now db c t)).level - c.level))

/-- The task row stored by `completeTask`: marked done with the
`completionReward` snapshot attached. -/
def completedTaskOf (xpOf : TaskXpInput → ℤ) (now : ℤ) (db : Db) (c : CharacterState)
    (t : Task) : Task :=
  { taskAfterComplete now t with
    completionReward := some { xpGain := xpOfComplete xpOf now db c t,
                               statGains := gainsOfComplete xpOf now db c t } }

theorem find?_append_left {α : Type} (p : α → Bool) (l1 l2 : List α) (a : α)
    (h : l1.find? p = some a) : (l1 ++ l2).find? p = some a := by
  rw [List.find?_append, h]
  rfl

theorem completeTask_spec (xpOf : TaskXpInput → ℤ) (now : ℤ) (ids : ℕ → String)
    (taskId : String) (db : Db) (u : String) (c : CharacterState) (t : Task)
    (hxp : ∀ i, 1 ≤ xpOf i)
    (hprof : db.profile = some u) (hchar : db.character = some c)
    (hfind : db.tasks.find? (fun x => x.id = taskId) = some t)
    (hstatus : t.status = TaskStatus.todo) :
    (completeTask xpOf now ids taskId db).2.profile = db.profile ∧
      (completeTask xpOf now ids taskId db).2.character =
        some (applyStatGains (applyXp c (xpOfComplete xpOf now db c t))
          (gainsOfComplete xpOf now db c t)) ∧
      (completeTask xpOf now ids taskId db).2.tasks.find? (fun x => x.id = taskId) =
        some (completedTaskOf xpOf now db c t) ∧
      (completeTask xpOf now ids taskId db).2.analyticsDaily =
        (upsertDailyAggregate now 0 1 (xpOfComplete xpOf now db c t) none 0 db).analyticsDaily := by
  have htid : t.id = taskId := by simpa using List.find?_some hfind
  have hpos : 0 < xpOfComplete xpOf now db c t := lt_of_lt_of_le one_pos (hxp _)
  cases hrec : t.recurrence with
  | none =>
    simp only [xpOfComplete, taskAfterComplete, hrec] at hpos
    unfold completeTask
    rw [hprof, hfind]
    unfold recordTaskCompletion
    rw [hchar]
    simp only [xpOfComplete, gainsOfComplete, completedTaskOf, taskAfterComplete,
      appendEvent, applyTaskAnalytics, hstatus, hrec, reduceCtorEq, reduceIte,
      Option.isSome_none, Bool.false_eq_true, if_false, if_pos hpos, Option.getD_some]
    refine ⟨?_, ?_, ?_, ?_⟩
    · rw [syncAch_profile, syncQuest_profile, upsert_profile]
      exact hprof
    · rw [syncAch_character, syncQuest_character, upsert_character]
    · rw [syncAch_tasks, syncQuest_tasks]
      exact find?_putByKey_task _ _ _ htid
    · rw [syncAch_analytics, syncQuest_analytics]
      exact upsert_analytics_only _ _ _ _ _ _ rfl
  | some rr =>
    simp only [xpOfComplete, taskAfterComplete, hrec] at hpos
    unfold completeTask
    rw [hprof, hfind]
    unfold recordTaskCompletion
    rw [hchar]
    simp only [xpOfComplete, gainsOfComplete, completedTaskOf, taskAfterComplete,
      appendEvent, applyTaskAnalytics, hstatus, hrec, reduceCtorEq, reduceIte,
      Option.isSome_some, if_true, if_pos hpos, Option.getD_some]
    refine ⟨?_, ?_, ?_, ?_⟩
    · rw [syncAch_profile, syncQuest_profile, upsert_profile]
      exact hprof
    · rw [syncAch_character, syncQuest_character, upsert_character]
    · rw [syncAch_tasks, syncQuest_tasks]
      exact find?_append_left _ _ _ _ (find?_putByKey_task _ _ _ htid)
    · rw [syncAch_analytics, syncQuest_analytics]
      exact upsert_analytics_only _ _ _ _ _ _ rfl

theorem reopenTask_spec (now : ℤ) (eventId taskId : String) (db : Db) (u : String)
    (task : Task) (c2 : CharacterState) (ca : ℤ) (cr : CompletionReward)
    (hprof : db.profile = some u)
    (hfind : db.tasks.find? (fun x => x.id = taskId) = some task)
    (hstatus : task.status = TaskStatus.done)
    (hchar : db.character = some c2)
    (hca : task.completedAt = some ca)
    (hcr : task.completionReward = some cr)
    (hcrxp : cr.xpGain ≠ 0) :
    (reopenTask now eventId taskId db).character =
        some (revertStatGains (removeXp c2 cr.xpGain) cr.statGains) ∧
      (reopenTask now eventId taskId db).analyticsDaily =
        (upsertDailyAggregate ca 0 (-1) (-cr.xpGain) none 0 db).analyticsDaily := by
  unfold reopenTask
  rw [hprof, hfind]
  simp only [hstatus, hca, hcr, hchar, appendEvent, reduceCtorEq, reduceIte,
    ne_eq, not_true_eq_false, if_false, if_neg hcrxp]
  refine ⟨?_, ?_⟩
  · rw [syncAch_character, syncQuest_character, upsert_character]
  · rw [syncAch_analytics, syncQuest_analytics]
    exact upsert_analytics_only _ _ _ _ _ _ rfl

/-- **C3.** Completing a task via `completeTask` and then reopening it via
`reopenTask`, with no other XP-earning or state-mutating activity in
between, restores the character's level, `xpCurrent` and per-stat values,
and the completion day's daily-aggregate `completions` and `xpGained`
counters, exactly to their pre-completion values (the stored
`completionReward` is reversed via `removeXp` and `revertStatGains`). -/
theorem claim3_complete_reopen_roundtrip
    (xpOf : TaskXpInput → ℤ) (hxp : ∀ i, 1 ≤ xpOf i)
    (now : ℤ) (ids : ℕ → String) (eid taskId : String) (db : Db)
    (u : String) (c : CharacterState) (t : Task)
    (hprof : db.profile = some u) (hchar : db.character = some c)
    (hfind : db.tasks.find? (fun x => x.id = taskId) = some t)
    (hstatus : t.status = TaskStatus.todo)
    (hL : 1 ≤ c.level) (hx : 0 ≤ c.xpCurrent) (hinv : charInv c)
    (hstats : ∀ k, 1 ≤ c.stats k) :
    ((reopenTask now eid taskId (completeTask xpOf now ids taskId db).2).character.map
        fun c2 => (c2.level, c2.xpCurrent, c2.stats))
        = some (c.level, c.xpCurrent, c.stats) ∧
      aggCompletions
          (reopenTask now eid taskId (completeTask xpOf now ids taskId db).2).analyticsDaily
          (msToDay now) = aggCompletions db.analyticsDaily (msToDay now) ∧
      aggXp
          (reopenTask now eid taskId (completeTask xpOf now ids taskId db).2).analyticsDaily
          (msToDay now) = aggXp db.analyticsDaily (msToDay now) := by
  obtain ⟨hP, hC, hfind2, hA⟩ :=
    completeTask_spec xpOf now ids taskId db u c t hxp hprof hchar hfind hstatus
  have hP2 : (completeTask xpOf now ids taskId db).2.profile = some u := by rw [hP, hprof]
  have hxp1 : 1 ≤ xpOfComplete xpOf now db c t := hxp _
  have hne : xpOfComplete xpOf now db c t ≠ 0 := by omega
  obtain ⟨hRC, hRA⟩ := reopenTask_spec now eid taskId (completeTask xpOf now ids taskId db).2
    u (completedTaskOf xpOf now db c t)
    (applyStatGains (applyXp c (xpOfComplete xpOf now db c t)) (gainsOfComplete xpOf now db c t))
    now { xpGain := xpOfComplete xpOf now db c t, statGains := gainsOfComplete xpOf now db c t }
    hP2 hfind2 rfl hC rfl rfl hne
  obtain ⟨h1, h2, h3⟩ := char_roundtrip c (xpOfComplete xpOf now db c t)
    (gainsOfComplete xpOf now db c t) hxp1 hL hx hinv hstats
  refine ⟨?_, ?_, ?_⟩
  · rw [hRC]
    simp [h1, h2, h3]
  · rw [hRA, aggCompletions_upsert, hA, aggCompletions_upsert]
    omega
  · rw [hRA, aggXp_upsert, hA, aggXp_upsert]
    have hproj : (CompletionReward.mk (xpOfComplete xpOf now db c t)
        (gainsOfComplete xpOf now db c t)).xpGain = xpOfComplete xpOf now db c t := rfl
    rw [hproj]
    omega

/-- A one-task database for exercising the complete/reopen round trip. -/
def c3Task : Task :=
  { id := "t1", title := "Stretch", categoryId := "cat", status := TaskStatus.todo,
    priority := Priority.medium, deadlineAt := none, recurrenceRule := none,
    estimateMinutes := 30, tags := [], notes := "", subtaskIds := [], subtasks := none,
    createdAt := 0, updatedAt := 0, completedAt := none,
    recurrence := some (TaskRecurrence.dailyInterval 1),
    completionReward := none }

def c3Db : Db :=
  { profile := some "u1", tasks := [c3Task], categories := [], quests := [],
    achievements := [], achievementProgress := [], focusSessions := [],
    character := some baseCharacter, streak := none, analyticsDaily := [],
    eventLog := [] }

theorem claim3_witness :
    ((reopenTask 9 "e1" "t1" (completeTask (fun _ => 1) 9 (fun _ => "n") "t1" c3Db).2).character.map
        fun c2 => (c2.level, c2.xpCurrent, c2.stats))
        = some (baseCharacter.level, baseCharacter.xpCurrent, baseCharacter.stats) ∧
      aggCompletions
          (reopenTask 9 "e1" "t1" (completeTask (fun _ => 1) 9 (fun _ => "n") "t1" c3Db).2).analyticsDaily
          (msToDay 9) = aggCompletions c3Db.analyticsDaily (msToDay 9) ∧
      aggXp
          (reopenTask 9 "e1" "t1" (completeTask (fun _ => 1) 9 (fun _ => "n") "t1" c3Db).2).analyticsDaily
          (msToDay 9) = aggXp c3Db.analyticsDaily (msToDay 9) :=
  claim3_complete_reopen_roundtrip (fun _ => 1) (fun _ => le_refl 1) 9 (fun _ => "n")
    "e1" "t1" c3Db "u1" baseCharacter c3Task rfl rfl (by decide) rfl
    (by decide) (by decide) (by decide) (by decide)

end RPG
